import Mathlib

set_option maxRecDepth 100000

/-!
Verification of the event-log subsystem of a hardhat compatibility layer
(`src/eventLogs/ethers.js` and `src/eventLogs/viem.js`).

The JavaScript code is shallowly embedded: dynamic JS values become the
inductive type `JsValue` (with a distinguished `undef` for JS `undefined`),
JS objects become insertion-ordered association lists (`jsSet` / `jsLookup`
model property assignment and access), thrown exceptions become
`Except JsErr`, and the numeric helpers of the ethers library
(`toBeHex`, `toTwos`, `zeroPadValue`) are modelled on arbitrary-precision
integers with the range checks those helpers perform.
-/

/-- A dynamic JavaScript value. `undef` is JS `undefined`, distinct from
`null`. `bytes` models a byte-like value (a `BytesLike`: hex string or
`Uint8Array`) as its byte list. Objects are insertion-ordered field lists. -/
inductive JsValue where
  | undef
  | null
  | bool (b : Bool)
  | num (n : Int)
  | str (s : String)
  | bytes (bs : List Nat)
  | arr (l : List JsValue)
  | obj (fields : List (String × JsValue))

/-- Errors thrown by the embedded code. `notFound` covers the
"not found in ABI" throws, `ambiguousEvent` the ethers library's
"ambiguous event description" assertion for an overloaded bare event
name, `tooManyArguments` the indexed-argument length check,
`unsupportedIndexedType` the `Unsupported indexed type` throw
(carrying the stringified type), `nullInArray` the
`null cannot be an individual topic in an array` throw, `typeError` a JS
TypeError (such as calling a method of `undefined`), `numericRange` a
range assertion inside the ethers numeric helpers, and `userError` an
exception thrown by a user-supplied callback. -/
inductive JsErr where
  | notFound
  | ambiguousEvent
  | tooManyArguments (expected got : Nat)
  | unsupportedIndexedType (t : String)
  | nullInArray
  | typeError
  | numericRange
  | userError (s : String)
  deriving DecidableEq, Repr

mutual

/-- JS `String(v)` / template-literal stringification, as used in the
`Unsupported indexed type: ...` message and in object-property keys
(`String(undefined) = "undefined"`, arrays join their elements with
commas, byte arrays behave likewise). -/
def jsDisplay : JsValue → String
  | .undef => "undefined"
  | .null => "null"
  | .bool true => "true"
  | .bool false => "false"
  | .num n => toString n
  | .str s => s
  | .bytes bs => String.intercalate "," (bs.map toString)
  | .arr l => jsDisplayList l
  | .obj _ => "[object Object]"

/-- comma-joined stringification of the elements of a JS array. -/
def jsDisplayList : List JsValue → String
  | [] => ""
  | [x] => jsDisplay x
  | x :: y :: rest => jsDisplay x ++ "," ++ jsDisplayList (y :: rest)

end

mutual

/-- Structural equality of JSON-like values. This models
`JSON.stringify(a) === JSON.stringify(b)` for values that come from JSON
data (no `undefined` inside, object keys in insertion order, such as the
ABI descriptors compared by the viem backend): on those, stringification
is injective, so string equality of the two serializations coincides
with structural equality of the trees. -/
def jsonEq : JsValue → JsValue → Bool
  | .undef, .undef => true
  | .null, .null => true
  | .bool a, .bool b => a == b
  | .num a, .num b => a == b
  | .str a, .str b => a == b
  | .bytes a, .bytes b => a == b
  | .arr l, .arr l' => jsonEqList l l'
  | .obj f, .obj f' => jsonEqFields f f'
  | _, _ => false

/-- elementwise `jsonEq` on JS arrays. -/
def jsonEqList : List JsValue → List JsValue → Bool
  | [], [] => true
  | x :: xs, y :: ys => jsonEq x y && jsonEqList xs ys
  | _, _ => false

/-- fieldwise `jsonEq` on JS objects (key order significant, exactly as
in `JSON.stringify`). -/
def jsonEqFields : List (String × JsValue) → List (String × JsValue) → Bool
  | [], [] => true
  | (k, v) :: xs, (k', v') :: ys => k == k' && jsonEq v v' && jsonEqFields xs ys
  | _, _ => false

end

/-- JS truthiness. `bytes` models hex strings/`Uint8Array`s as used for
addresses and fixed-byte values, which are truthy in the uses made here. -/
def truthy : JsValue → Bool
  | .undef => false
  | .null => false
  | .bool b => b
  | .num n => n != 0
  | .str s => s != ""
  | .bytes _ => true
  | .arr _ => true
  | .obj _ => true

/-- JS strict equality `v === s` of a dynamic value against a string
literal or string variable. -/
def strEqJs (v : JsValue) (s : String) : Bool :=
  match v with
  | .str s' => s' == s
  | _ => false

/-- Is the value JS `undefined`? (models `x !== undefined` checks). -/
def isUndef : JsValue → Bool
  | .undef => true
  | _ => false

/-- Is the value `null` or `undefined`? (models the `??` operator's
test). -/
def isNullish : JsValue → Bool
  | .undef => true
  | .null => true
  | _ => false

/-- Property lookup in an insertion-ordered object field list; a missing
key reads as `undefined`, as in JS. -/
def jsLookup : List (String × JsValue) → String → JsValue
  | [], _ => .undef
  | (k', v) :: rest, k => if k' = k then v else jsLookup rest k

/-- Property assignment on an insertion-ordered object field list: an
existing key keeps its position and gets the new value, a new key is
appended, as in JS. -/
def jsSet : List (String × JsValue) → String → JsValue → List (String × JsValue)
  | [], k, v => [(k, v)]
  | (k', v') :: rest, k, v =>
    if k' = k then (k, v) :: rest else (k', v') :: jsSet rest k v

/-- String-keyed property access `o[k]` for a non-numeric key `k` (the
keys so accessed by the code are event and parameter names, which are
Solidity identifiers and therefore never canonical array indices, so
array access by such a key yields `undefined`). -/
def jsGet (o : JsValue) (k : String) : JsValue :=
  match o with
  | .obj fields => jsLookup fields k
  | _ => (.undef)

/-- Numeric-keyed property access `o[i]`: index access on arrays, and
string-converted key access on objects, as in JS. -/
def jsIndex (o : JsValue) (i : Nat) : JsValue :=
  match o with
  | .arr l => l.getD i .undef
  | .obj fields => jsLookup fields (toString i)
  | _ => (.undef)

/-- An encoded topic-filter slot: `wildcard` is the JS `null` slot,
`exact` a single 32-byte value, `anyOf` a JS array of alternative encoded
values (OR semantics). -/
inductive Topic where
  | wildcard
  | exact (bs : List Nat)
  | anyOf (ts : List Topic)

/-- A parameter of an ethers event fragment: `name`, `type` and
`indexed` exactly as in `eventFragment.inputs`. -/
structure EParam where
  name : String
  type : String
  indexed : Bool
  deriving DecidableEq, Repr

/-- An ethers event fragment: the event `name` and its ordered `inputs`. -/
structure EventFragment where
  name : String
  inputs : List EParam
  deriving DecidableEq, Repr

namespace Ethers

/-- `uintTypes` from `ethers.js` lines 149-157: `uint8` .. `uint256`
built by the module-level loop. -/
def uintTypes : List String := (List.range 32).map (fun j => "uint" ++ toString ((j + 1) * 8))

/-- `intTypes` from `ethers.js` lines 149-157: `int8` .. `int256`. -/
def intTypes : List String := (List.range 32).map (fun j => "int" ++ toString ((j + 1) * 8))

/-- `bytesTypes` from `ethers.js` lines 149-157: `bytes1` .. `bytes32`. -/
def bytesTypes : List String := (List.range 32).map (fun j => "bytes" ++ toString (j + 1))

/-- The big-endian `w`-byte representation of `n` (mod `2 ^ (8 * w)`),
the byte content of the hex string produced by `ethers.toBeHex`. -/
def beBytes : Nat → Nat → List Nat
  | 0, _ => []
  | w + 1, n => beBytes w (n / 256) ++ [n % 256]

/-- `ethers.zeroPadValue` on raw byte content: left-pad with zero bytes
to width `w`; ethers throws if the data is longer than `w`. -/
def zeroPadBytes (bs : List Nat) (w : Nat) : Except JsErr (List Nat) :=
  if w < bs.length then .error .numericRange
  else .ok (List.replicate (w - bs.length) 0 ++ bs)

/-- `ethers.zeroPadValue(value, w)` on a dynamic value: the value must be
byte-like (hex string / `Uint8Array`), otherwise ethers rejects it. -/
def zeroPadValue (v : JsValue) (w : Nat) : Except JsErr (List Nat) :=
  match v with
  | .bytes bs => zeroPadBytes bs w
  | _ => .error .typeError

/-- `ethers.toBeHex(value, w)`: the unsigned big-endian hex representation
of a numeric value, `w` bytes wide; ethers throws for negative values and
for values that do not fit in `w` bytes. Only numeric (`BigNumberish`)
inputs are modelled. -/
def toBeHex (v : JsValue) (w : Nat) : Except JsErr (List Nat) :=
  match v with
  | .num n =>
    if n < 0 then .error .numericRange
    else if (2 : Int) ^ (8 * w) ≤ n then .error .numericRange
    else .ok (beBytes w n.toNat)
  | _ => .error .typeError

/-- `ethers.toTwos(value, width)`: the two's-complement representation of
a numeric value within `width` bits; ethers throws for values outside
`[-2 ^ (width - 1), 2 ^ (width - 1))`. -/
def toTwos (v : JsValue) (width : Nat) : Except JsErr JsValue :=
  match v with
  | .num n =>
    if n < -((2 : Int) ^ (width - 1)) then .error .numericRange
    else if (2 : Int) ^ (width - 1) ≤ n then .error .numericRange
    else .ok (.num (n % (2 : Int) ^ width))
  | _ => .error .typeError

/-- The type-dispatch part of `encodeIndexedValue` (`ethers.js` lines
178-189), reached once array/null handling is done. `hre` records whether
the `hre` parameter actually is the hardhat runtime environment: the
buggy recursive call at line 168 passes the type string in its place, and
then `hre.ethers` is `undefined`, so every branch that calls an ethers
helper throws a TypeError before the helper runs. A non-string `type`
fails all five string comparisons and falls through to the
`Unsupported indexed type` throw. -/
def encodeScalar (hre : Bool) (type value : JsValue) : Except JsErr Topic :=
  match type with
  | .str s =>
    if s = "address" then
      if hre then (zeroPadValue value 32).map Topic.exact else .error .typeError
    else if uintTypes.contains s then
      if hre then
        match toBeHex value 32 with
        | .error e => .error e
        | .ok hx => (zeroPadBytes hx 32).map Topic.exact
      else .error .typeError
    else if intTypes.contains s then
      if hre then
        match toTwos value 256 with
        | .error e => .error e
        | .ok tw =>
          match toBeHex tw 32 with
          | .error e => .error e
          | .ok hx => (zeroPadBytes hx 32).map Topic.exact
      else .error .typeError
    else if s = "bool" then
      if hre then
        match toBeHex (.num (if truthy value then 1 else 0)) 32 with
        | .error e => .error e
        | .ok hx => (zeroPadBytes hx 32).map Topic.exact
      else .error .typeError
    else if bytesTypes.contains s then
      if hre then (zeroPadValue value 32).map Topic.exact else .error .typeError
    else .error (.unsupportedIndexedType s)
  | t => .error (.unsupportedIndexedType (jsDisplay t))

/-- The recursive call `encodeIndexedValue(type, v, true)` at `ethers.js`
line 168. It passes only three arguments to a four-parameter function, so
inside the callee `hre` is bound to the old `type`, `type` to the array
element `v`, `value` to the literal `true`, and `cannotBeArrayOrNull` to
`undefined` (falsy). Because `value` is then the boolean `true` it is
neither `null` nor an array, so the body reduces to the scalar dispatch
on `v` as the type, with an invalid `hre` (reading `.ethers` of a string
yields `undefined`). -/
def encodeIndexedValueShifted (v : JsValue) : Except JsErr Topic :=
  encodeScalar false v (.bool true)

/-- `value.map((v) => encodeIndexedValue(type, v, true))` at `ethers.js`
line 168: maps the argument-shifted recursive call over the array's
elements left to right, the first thrown exception propagating, exactly
as a throw inside `Array.prototype.map` does. -/
def mapEncodeShifted : List JsValue → Except JsErr (List Topic)
  | [] => .ok []
  | v :: rest =>
    match encodeIndexedValueShifted v with
    | .error e => .error e
    | .ok t => (mapEncodeShifted rest).map (fun ts => t :: ts)

/-- `encodeIndexedValue(hre, type, value, cannotBeArrayOrNull)` from
`ethers.js` lines 160-190. `Topic.wildcard` is the `return null` for a
null value; an array maps each element through the (argument-shifted)
recursive call and returns the resulting array (`Topic.anyOf`); the
`null cannot be an individual topic in an array` throw is only reachable
when `cannotBeArrayOrNull` is truthy. -/
def encodeIndexedValue (hre : Bool) (type value : JsValue)
    (cannotBeArrayOrNull : Bool) : Except JsErr Topic :=
  if cannotBeArrayOrNull = false then
    match value with
    | .null => .ok .wildcard
    | .arr l => (mapEncodeShifted l).map Topic.anyOf
    | .undef => encodeScalar hre type .undef
    | .bool b => encodeScalar hre type (.bool b)
    | .num n => encodeScalar hre type (.num n)
    | .str s => encodeScalar hre type (.str s)
    | .bytes bs => encodeScalar hre type (.bytes bs)
    | .obj f => encodeScalar hre type (.obj f)
  else
    match value with
    | .null => .error .nullInArray
    | .undef => encodeScalar hre type .undef
    | .bool b => encodeScalar hre type (.bool b)
    | .num n => encodeScalar hre type (.num n)
    | .str s => encodeScalar hre type (.str s)
    | .bytes bs => encodeScalar hre type (.bytes bs)
    | .arr l => encodeScalar hre type (.arr l)
    | .obj f => encodeScalar hre type (.obj f)

/-- The loop body of `encodeTopics` (`ethers.js` lines 133-147), with the
mutable `index` counter made explicit. For each indexed parameter the
code computes `indexedArgs[eventFragment.name] ?? indexedArgs[index++]`
(note: it reads the property named after the **event**, not after the
parameter) and pushes the encoded value, or a `null` (wildcard) slot when
the value is `undefined`. -/
def encodeTopicsGo (hre : Bool) (evName : String) (indexedArgs : JsValue) :
    Nat → List EParam → Except JsErr (List Topic)
  | _, [] => .ok []
  | index, p :: rest =>
    if p.indexed then
      let byName := jsGet indexedArgs evName
      let value := if isNullish byName then jsIndex indexedArgs index else byName
      let index' := if isNullish byName then index + 1 else index
      if isUndef value then
        (encodeTopicsGo hre evName indexedArgs index' rest).map
          (fun ts => Topic.wildcard :: ts)
      else
        match encodeIndexedValue hre (.str p.type) value false with
        | .error e => .error e
        | .ok t =>
          (encodeTopicsGo hre evName indexedArgs index' rest).map
            (fun ts => t :: ts)
    else encodeTopicsGo hre evName indexedArgs index rest

/-- `encodeTopics(hre, eventFragment, indexedArgs)` from `ethers.js`
lines 133-147. -/
def encodeTopics (hre : Bool) (eventFragment : EventFragment)
    (indexedArgs : JsValue) : Except JsErr (List Topic) :=
  encodeTopicsGo hre eventFragment.name indexedArgs 0 eventFragment.inputs

end Ethers

example :
    Ethers.encodeIndexedValue true (.str "uint256") (.num 2) false
      = .ok (.exact (List.replicate 31 0 ++ [2])) := by rfl

example :
    Ethers.encodeIndexedValue true (.str "int256") (.num (-2)) false
      = .ok (.exact (List.replicate 31 255 ++ [254])) := by rfl

example :
    Ethers.encodeIndexedValue true (.str "uint256") (.arr [.num 2]) false
      = .error (.unsupportedIndexedType "2") := by rfl

/-- The canonical normalized log record produced by both backends'
`normalizeLog` (name, dual-keyed args, block/tx metadata, and the
untouched backend-native payload of type `α`). -/
structure NormalizedLog (α : Type) where
  name : JsValue
  args : List (String × JsValue)
  blockNumber : JsValue
  blockHash : JsValue
  transactionIndex : JsValue
  transactionHash : JsValue
  logIndex : JsValue
  native : α

/-- A raw ethers provider log (an ethers `Log` object) as used by
`normalizeLog` and `fetchTransactionLogs`: block/transaction metadata and
the log `index`. An ethers `Log` carries additionally `address`, `data`
and `topics`, which this code never reads; it has **no** `signature`
property. -/
structure RawEntry where
  blockNumber : JsValue
  blockHash : JsValue
  transactionIndex : JsValue
  transactionHash : JsValue
  index : JsValue

/-- Reading `entry.signature` on a raw ethers `Log`: the property does
not exist, so the access yields `undefined`. -/
def rawSignature (_ : RawEntry) : JsValue := (.undef)

/-- The result of `iface.parseLog(entry)` when it parses: the event
`name`, the fragment `inputs`, and the decoded argument values in
declaration order (an ethers `Result` allows access both by position and
by parameter name). -/
structure ParsedLog where
  name : String
  inputs : List EParam
  argVals : List JsValue

namespace Ethers

/-- The position of the first input whose name is `k`, if any — the name
lookup an ethers `Result` performs for named access. An ethers `Result`
stores its key list as `param.name || null`, so an input with an empty
(absent) name contributes **no** key and can never be found by name. -/
def nameIdx (k : String) : List EParam → Option Nat
  | [] => none
  | p :: rest =>
    if p.name ≠ "" ∧ p.name = k then some 0 else (nameIdx k rest).map (· + 1)

/-- `log.args[key]` on an ethers `Result`: the value at the position of
the first input carrying that name as its key, `undefined` when no input
does — in particular `log.args[""]` is always `undefined`, because empty
parameter names are dropped (`param.name || null`) from the key list.
(For a name shared by several inputs an ethers `Result` throws on
access; the properties proved below assume pairwise-distinct names, on
which first-position lookup coincides with the library.) -/
def resultByName (log : ParsedLog) (k : String) : JsValue :=
  match nameIdx k log.inputs with
  | some i => log.argVals.getD i .undef
  | none => (.undef)

/-- `log.args[index]` on an ethers `Result`: positional access. -/
def resultByIndex (log : ParsedLog) (i : Nat) : JsValue :=
  log.argVals.getD i (.undef)

/-- The bare-name branch of the ethers v6 library's
`Interface.getEvent`, which `fetchLogs` and `watchLogs` call at
`ethers.js` lines 25 and 70 when the event identifier contains no
parenthesis: the interface's event fragments whose name equals the key
are collected; no match fails (the library asserts "no matching event";
builds that return `null` instead are then rejected by the caller's own
`Event not found in ABI` throw — either way a not-found error), a unique
match is returned, and **several** matches — an overloaded bare name —
fail with the "ambiguous event description" assertion: the library does
not pick the first overload. -/
def getEventBareName (fragments : List EventFragment) (key : String) :
    Except JsErr EventFragment :=
  match fragments.filter (fun f => f.name == key) with
  | [] => .error .notFound
  | [f] => .ok f
  | _ :: _ :: _ => .error .ambiguousEvent

/-- The `argKeys.forEach((key, index) => ...)` loop of `normalizeLog`
(`ethers.js` lines 117-120), with the element index made explicit: each
iteration assigns `args[key] = log.args[key]` and then
`args[index] = log.args[index]`. -/
def normalizeLogArgs (log : ParsedLog) :
    Nat → List String → List (String × JsValue) → List (String × JsValue)
  | _, [], acc => acc
  | index, key :: rest, acc =>
    normalizeLogArgs log (index + 1) rest
      (jsSet (jsSet acc key (resultByName log key)) (toString index)
        (resultByIndex log index))

/-- `normalizeLog(iface, entry)` from `ethers.js` lines 112-130. The
interface's `parseLog` is the external ethers decoder, taken as a
parameter; `null` (no ABI entry parses the entry) becomes `none`. -/
def normalizeLog (parseLog : RawEntry → Option ParsedLog) (entry : RawEntry) :
    Option (NormalizedLog RawEntry) :=
  match parseLog entry with
  | none => none
  | some log =>
    some { name := .str log.name,
           args := normalizeLogArgs log 0 (log.inputs.map (fun i => i.name)) [],
           blockNumber := entry.blockNumber,
           blockHash := entry.blockHash,
           transactionIndex := entry.transactionIndex,
           transactionHash := entry.transactionHash,
           logIndex := entry.index,
           native := entry }

/-- The `wrappedCallback` of `watchLogs` (`ethers.js` lines 77-80): it
invokes the user callback on the normalized payload log directly, with
no `try`/`catch`, so an exception thrown by the callback propagates out
of the delivery boundary. Each emitter invocation carries one log. -/
def wrappedCallback (parseLog : RawEntry → Option ParsedLog)
    (callback : Option (NormalizedLog RawEntry) → Except JsErr Unit)
    (entry : RawEntry) : Except JsErr Unit :=
  callback (normalizeLog parseLog entry)

/-- `fetchTransactionLogs(hre, contract, {hash}, eventName)` from
`ethers.js` lines 201-208, with the receipt's raw logs supplied directly
(receipt retrieval is backend I/O). It normalizes every receipt log,
drops the nulls, and keeps entries whose `name` or `native.signature`
strictly equals `eventName`; it performs no event-descriptor
resolution. -/
def fetchTransactionLogs (parseLog : RawEntry → Option ParsedLog)
    (receiptLogs : List RawEntry) (eventName : String) :
    List (NormalizedLog RawEntry) :=
  ((receiptLogs.map (normalizeLog parseLog)).filterMap id).filter
    (fun e => strEqJs e.name eventName || strEqJs (rawSignature e.native) eventName)

end Ethers

/-- A raw viem log as delivered by `getLogs` / `watchEvent` /
`parseEventLogs`: the decoded `eventName` and `args` plus block and
transaction metadata. -/
structure RawViemLog where
  eventName : JsValue
  args : JsValue
  blockNumber : JsValue
  blockHash : JsValue
  transactionIndex : JsValue
  transactionHash : JsValue
  logIndex : JsValue

/-- helper for the array case of `jsSpread`: index keys `"0"`, `"1"`,
... as produced by spreading an array into an object literal. -/
def jsSpreadGo : Nat → List JsValue → List (String × JsValue)
  | _, [] => []
  | i, x :: xs => (toString i, x) :: jsSpreadGo (i + 1) xs

/-- The object-spread `{...v}`: copies the own enumerable properties of
`v` (an object keeps its fields, an array yields index keys, a primitive
yields an empty object). -/
def jsSpread : JsValue → List (String × JsValue)
  | .obj fields => fields
  | .arr l => jsSpreadGo 0 l
  | _ => []

namespace Viem

/-- `eventAbi.inputs` as a list of parameter descriptors. ABI event items
always carry an `inputs` array; for anything else (which would throw in
JS before reaching the uses modelled here) the read yields no inputs. -/
def abiInputs (abi : JsValue) : List JsValue :=
  match jsGet abi "inputs" with
  | .arr l => l
  | _ => []

/-- `getEventAbi(contract, eventName)` from `viem.js` lines 79-108.
`parseAbiItem` is the external viem human-readable-ABI parser, taken as a
parameter (it throws for strings it cannot parse). A bare name (no
parenthesis) selects the first ABI item with `type === "event"` and a
strictly equal `name`; a parenthesised specification is parsed and an ABI
item must compare equal under `JSON.stringify`-equality (`jsonEq`), in
which case the **parsed** item is returned. -/
def getEventAbi (parseAbiItem : String → Except JsErr JsValue)
    (abi : List JsValue) (eventName : String) : Except JsErr JsValue :=
  if !(eventName.data.contains '(') then
    match abi.filter (fun item =>
        strEqJs (jsGet item "type") "event" && strEqJs (jsGet item "name") eventName) with
    | [] => .error .notFound
    | m :: _ => .ok m
  else
    match parseAbiItem eventName with
    | .error e => .error e
    | .ok parsedAbiItem =>
      match abi.filter (fun item =>
          strEqJs (jsGet item "type") "event" && jsonEq item parsedAbiItem) with
      | [] => .error .notFound
      | _ :: _ => .ok parsedAbiItem

/-- The `indexedParams.reduce(...)` of `normalizeIndexedArgs`
(`viem.js` lines 123-128), with the element index made explicit: a
defined positional value is stored under the property key
`String(param.name)` (which is `"undefined"` when the parameter has no
name), an `undefined` position is skipped. -/
def buildIndexedObjGo (indexedArgs : List JsValue) :
    Nat → List JsValue → List (String × JsValue) → List (String × JsValue)
  | _, [], acc => acc
  | index, param :: rest, acc =>
    let v := indexedArgs.getD index .undef
    buildIndexedObjGo indexedArgs (index + 1) rest
      (if isUndef v then acc else jsSet acc (jsDisplay (jsGet param "name")) v)

/-- `normalizeIndexedArgs(eventAbi, indexedArgs)` from `viem.js` lines
111-133: an array longer than the indexed-parameter count throws
`Too many indexed arguments ...`; otherwise positions are paired with
the indexed parameters by index; a non-array passes through (with
`?? {}` for nullish input). -/
def normalizeIndexedArgs (eventAbi : JsValue) (indexedArgs : JsValue) :
    Except JsErr JsValue :=
  match indexedArgs with
  | .arr l =>
    let indexedParams := (abiInputs eventAbi).filter (fun p => truthy (jsGet p "indexed"))
    if indexedParams.length < l.length then
      .error (.tooManyArguments indexedParams.length l.length)
    else .ok (.obj (buildIndexedObjGo l 0 indexedParams []))
  | v => .ok (if isNullish v then .obj [] else v)

/-- The `abi.inputs.forEach((input, index) => ...)` loop of
`normalizeLog` (`viem.js` lines 148-150): each iteration assigns
`args[index] = args[input.name]`, reading from the current `args`. -/
def normalizeLogArgsGo : Nat → List JsValue → List (String × JsValue) →
    List (String × JsValue)
  | _, [], acc => acc
  | index, input :: rest, acc =>
    normalizeLogArgsGo (index + 1) rest
      (jsSet acc (toString index) (jsLookup acc (jsDisplay (jsGet input "name"))))

/-- `normalizeLog(abi, log)` from `viem.js` lines 146-161. -/
def normalizeLog (abi : JsValue) (log : RawViemLog) : NormalizedLog RawViemLog :=
  { name := log.eventName,
    args := normalizeLogArgsGo 0 (abiInputs abi) (jsSpread log.args),
    blockNumber := log.blockNumber,
    blockHash := log.blockHash,
    transactionIndex := log.transactionIndex,
    transactionHash := log.transactionHash,
    logIndex := log.logIndex,
    native := log }

/-- The `onLogs` batch delivery of `watchLogs` (`viem.js` lines 66-74):
`logs.forEach` normalizes each log and invokes the user callback inside
`try { ... } catch (e) { console.error(e) }`. A caught callback exception
is recorded next to the delivered log (the `console.error` report);
delivery then continues with the rest of the batch, and the function is
total, so no exception escapes the subscription's delivery boundary. -/
def onLogsDeliver (eventAbi : JsValue)
    (callback : NormalizedLog RawViemLog → Except JsErr Unit) :
    List RawViemLog → List (NormalizedLog RawViemLog × Option JsErr)
  | [] => []
  | log :: rest =>
    let n := normalizeLog eventAbi log
    let outcome := match callback n with
      | .ok _ => none
      | .error e => some e
    (n, outcome) :: onLogsDeliver eventAbi callback rest

/-- `fetchTransactionLogs(hre, contract, tx, eventName)` from `viem.js`
lines 172-183, with the receipt's raw logs supplied directly (receipt
retrieval is backend I/O) and the external `parseEventLogs` decoder taken
as a parameter. Unlike the ethers variant, it resolves the event
identifier through `getEventAbi` first, so an unknown identifier
throws. -/
def fetchTransactionLogs (parseAbiItem : String → Except JsErr JsValue)
    (contractAbi : List JsValue)
    (parseEventLogs : List JsValue → String → List RawViemLog → List RawViemLog)
    (receiptLogs : List RawViemLog) (eventName : String) :
    Except JsErr (List (NormalizedLog RawViemLog)) :=
  match getEventAbi parseAbiItem contractAbi eventName with
  | .error e => .error e
  | .ok abiItem =>
    .ok ((parseEventLogs [abiItem] eventName receiptLogs).map (normalizeLog abiItem))

end Viem

/-- Following the spec's words for full-signature resolution: an
"exact structural match" has the same name, the same ordered parameter
types and the same indexed flags — explicitly **independent** of the
descriptors' parameter names (and of any auxiliary descriptor fields).
This is the spec-side comparison the code's `JSON.stringify` matching is
measured against. -/
def specStructMatch (item parsed : JsValue) : Bool :=
  jsonEq (jsGet item "name") (jsGet parsed "name") &&
  (Viem.abiInputs item).length == (Viem.abiInputs parsed).length &&
  (List.zip (Viem.abiInputs item) (Viem.abiInputs parsed)).all
    (fun ab => jsonEq (jsGet ab.1 "type") (jsGet ab.2 "type") &&
      truthy (jsGet ab.1 "indexed") == truthy (jsGet ab.2 "indexed"))

/-- Following the spec's words: the canonical signature of an event is
its name plus its parameter types in declaration order. -/
def specCanonicalSignature (name : String) (types : List String) : String :=
  name ++ "(" ++ String.intercalate "," types ++ ")"

/-! ### Concrete sample data

The event of the repository's sample projects,
`SampleEvent(bytes32 indexed foo, uint256 indexed bar, int256 indexed baz, bytes data)`,
in the shapes the two backends see it: an ethers event fragment, the
hardhat artifact ABI item (with `anonymous`/`internalType` fields and
alphabetical key order, as hardhat emits it), and the item-shape produced
by viem's human-readable parser for the corresponding full signature. -/

/-- `SampleEvent` as an ethers event fragment. -/
def sampleFragment : EventFragment :=
  { name := "SampleEvent",
    inputs := [⟨"foo", "bytes32", true⟩, ⟨"bar", "uint256", true⟩,
               ⟨"baz", "int256", true⟩, ⟨"data", "bytes", false⟩] }

/-- `SampleEvent` as the hardhat artifact ABI item the viem contract
handle exposes. -/
def sampleAbiItem : JsValue :=
  .obj [("anonymous", .bool false),
        ("inputs", .arr [
          .obj [("indexed", .bool true), ("internalType", .str "bytes32"),
                ("name", .str "foo"), ("type", .str "bytes32")],
          .obj [("indexed", .bool true), ("internalType", .str "uint256"),
                ("name", .str "bar"), ("type", .str "uint256")],
          .obj [("indexed", .bool true), ("internalType", .str "int256"),
                ("name", .str "baz"), ("type", .str "int256")],
          .obj [("indexed", .bool false), ("internalType", .str "bytes"),
                ("name", .str "data"), ("type", .str "bytes")]]),
        ("name", .str "SampleEvent"),
        ("type", .str "event")]

/-- The descriptor shape viem's `parseAbiItem` produces for
`event SampleEvent(bytes32 indexed foo, uint256 indexed bar, int256 indexed baz, bytes data)`:
no `anonymous` or `internalType` fields, keys in parser order. -/
def sampleParsedItem : JsValue :=
  .obj [("name", .str "SampleEvent"),
        ("type", .str "event"),
        ("inputs", .arr [
          .obj [("type", .str "bytes32"), ("name", .str "foo"), ("indexed", .bool true)],
          .obj [("type", .str "uint256"), ("name", .str "bar"), ("indexed", .bool true)],
          .obj [("type", .str "int256"), ("name", .str "baz"), ("indexed", .bool true)],
          .obj [("type", .str "bytes"), ("name", .str "data")]])]

/-- An event item whose two indexed parameters carry no names, as viem's
parser produces for a type-only signature such as
`event SampleEvent(bytes32 indexed, uint256 indexed)`. -/
def anonEventItem : JsValue :=
  .obj [("name", .str "SampleEvent"), ("type", .str "event"),
        ("inputs", .arr [
          .obj [("type", .str "bytes32"), ("indexed", .bool true)],
          .obj [("type", .str "uint256"), ("indexed", .bool true)]])]

/-! ### Helper lemmas about the JS object model and byte encoding -/

theorem jsLookup_jsSet_self (m : List (String × JsValue)) (k : String) (v : JsValue) :
    jsLookup (jsSet m k v) k = v := by
  induction m with
  | nil => simp [jsSet, jsLookup]
  | cons p rest ih =>
    obtain ⟨k', v'⟩ := p
    by_cases h : k' = k <;> simp [jsSet, jsLookup, h, ih]

theorem jsLookup_jsSet_ne (m : List (String × JsValue)) {k' k : String} (v : JsValue)
    (h : k' ≠ k) : jsLookup (jsSet m k' v) k = jsLookup m k := by
  induction m with
  | nil => simp [jsSet, jsLookup, h]
  | cons p rest ih =>
    obtain ⟨k'', v''⟩ := p
    by_cases h2 : k'' = k'
    · subst h2; simp [jsSet, jsLookup, h]
    · simp only [jsSet, if_neg h2]
      by_cases h3 : k'' = k <;> simp [jsLookup, h3, ih]

theorem fst_eq_of_mem_jsSet {m : List (String × JsValue)} {k : String} {v : JsValue}
    {p : String × JsValue} (hp : p ∈ jsSet m k v) : p.1 = k ∨ p ∈ m := by
  induction m with
  | nil => simp [jsSet] at hp; simp [hp]
  | cons q rest ih =>
    obtain ⟨k'', v''⟩ := q
    by_cases h : k'' = k
    · simp [jsSet, h] at hp
      rcases hp with h1 | h1
      · left; simp [h1]
      · right; simp [h1]
    · simp [jsSet, h] at hp
      rcases hp with h1 | h1
      · right; simp [h1]
      · rcases ih h1 with h2 | h2
        · left; exact h2
        · right; simp [h2]

theorem beBytes_length (w n : Nat) : (Ethers.beBytes w n).length = w := by
  induction w generalizing n with
  | zero => simp [Ethers.beBytes]
  | succ w ih => simp [Ethers.beBytes, ih]

/-- The value of the big-endian byte string: `beBytes` really is the
base-256 big-endian representation of `n` (modulo `256 ^ w`). -/
theorem beBytes_val (w n : Nat) :
    (Ethers.beBytes w n).foldl (fun a b => 256 * a + b) 0 = n % 256 ^ w := by
  induction w generalizing n with
  | zero => simp [Ethers.beBytes, Nat.mod_one]
  | succ w ih =>
    have hsplit : ∀ (l : List Nat) (x : Nat) (a : Nat),
        (l ++ [x]).foldl (fun a b => 256 * a + b) a
          = 256 * (l.foldl (fun a b => 256 * a + b) a) + x := by
      intro l x a
      simp [List.foldl_append]
    calc (Ethers.beBytes (w + 1) n).foldl (fun a b => 256 * a + b) 0
        = 256 * ((Ethers.beBytes w (n / 256)).foldl (fun a b => 256 * a + b) 0) + n % 256 := by
          simp [Ethers.beBytes, hsplit]
      _ = 256 * ((n / 256) % 256 ^ w) + n % 256 := by rw [ih]
      _ = n % 256 ^ (w + 1) := by
          rw [pow_succ, mul_comm (256 ^ w) 256, Nat.mod_mul]
          ring

/-! ### Reduction lemmas for the scalar topic encoder -/

theorem toBeHex_num_ok {n : Int} (h0 : 0 ≤ n) (h1 : n < (2 : Int) ^ 256) :
    Ethers.toBeHex (.num n) 32 = .ok (Ethers.beBytes 32 n.toNat) := by
  simp only [Ethers.toBeHex]
  rw [if_neg (by omega), if_neg (by omega)]

theorem toTwos_num_ok {n : Int} (h0 : -((2 : Int) ^ 255) ≤ n)
    (h1 : n < (2 : Int) ^ 255) :
    Ethers.toTwos (.num n) 256 = .ok (.num (n % (2 : Int) ^ 256)) := by
  simp only [Ethers.toTwos]
  rw [if_neg (by omega), if_neg (by omega)]

theorem zeroPadBytes_ok {bs : List Nat} (h : bs.length ≤ 32) :
    Ethers.zeroPadBytes bs 32 = .ok (List.replicate (32 - bs.length) 0 ++ bs) := by
  simp [Ethers.zeroPadBytes, Nat.not_lt.mpr h]

theorem zeroPadBytes_beBytes (m : Nat) :
    Ethers.zeroPadBytes (Ethers.beBytes 32 m) 32 = .ok (Ethers.beBytes 32 m) := by
  simp [Ethers.zeroPadBytes, beBytes_length]

theorem encodeScalar_uint_ok {t : String} (ht : t ∈ Ethers.uintTypes) {n : Int}
    (h0 : 0 ≤ n) (h1 : n < (2 : Int) ^ 256) :
    Ethers.encodeScalar true (.str t) (.num n)
      = .ok (.exact (Ethers.beBytes 32 n.toNat)) := by
  have haddr : t ≠ "address" := by rintro rfl; exact absurd ht (by decide)
  simp [Ethers.encodeScalar, haddr, ht, toBeHex_num_ok h0 h1, zeroPadBytes_beBytes,
    Except.map]

theorem encodeScalar_int_ok {t : String} (ht : t ∈ Ethers.intTypes) {n : Int}
    (h0 : -((2 : Int) ^ 255) ≤ n) (h1 : n < (2 : Int) ^ 255) :
    Ethers.encodeScalar true (.str t) (.num n)
      = .ok (.exact (Ethers.beBytes 32 (n % (2 : Int) ^ 256).toNat)) := by
  have haddr : t ≠ "address" := by rintro rfl; exact absurd ht (by decide)
  have hdisj : ∀ x ∈ Ethers.intTypes, x ∉ Ethers.uintTypes := by decide
  have hm0 : (0 : Int) ≤ n % (2 : Int) ^ 256 := Int.emod_nonneg n (by positivity)
  have hm1 : n % (2 : Int) ^ 256 < (2 : Int) ^ 256 :=
    Int.emod_lt_of_pos n (by positivity)
  simp [Ethers.encodeScalar, haddr, hdisj t ht, ht, toTwos_num_ok h0 h1,
    toBeHex_num_ok hm0 hm1, zeroPadBytes_beBytes, Except.map, -Int.reducePow]

theorem encodeScalar_address_ok {bs : List Nat} (hlen : bs.length ≤ 32) :
    Ethers.encodeScalar true (.str "address") (.bytes bs)
      = .ok (.exact (List.replicate (32 - bs.length) 0 ++ bs)) := by
  simp [Ethers.encodeScalar, Ethers.zeroPadValue, zeroPadBytes_ok hlen, Except.map]

theorem encodeScalar_bytes_ok {t : String} (ht : t ∈ Ethers.bytesTypes)
    {bs : List Nat} (hlen : bs.length ≤ 32) :
    Ethers.encodeScalar true (.str t) (.bytes bs)
      = .ok (.exact (List.replicate (32 - bs.length) 0 ++ bs)) := by
  have haddr : t ≠ "address" := by rintro rfl; exact absurd ht (by decide)
  have hbool : t ≠ "bool" := by rintro rfl; exact absurd ht (by decide)
  have hdu : ∀ x ∈ Ethers.bytesTypes, x ∉ Ethers.uintTypes := by decide
  have hdi : ∀ x ∈ Ethers.bytesTypes, x ∉ Ethers.intTypes := by decide
  simp [Ethers.encodeScalar, haddr, hbool, hdu t ht, hdi t ht, ht,
    Ethers.zeroPadValue, zeroPadBytes_ok hlen, Except.map]

theorem encodeScalar_unsupported {t : String} (haddr : t ≠ "address")
    (hbool : t ≠ "bool") (hu : t ∉ Ethers.uintTypes) (hi : t ∉ Ethers.intTypes)
    (hb : t ∉ Ethers.bytesTypes) (v : JsValue) :
    Ethers.encodeScalar true (.str t) v = .error (.unsupportedIndexedType t) := by
  simp [Ethers.encodeScalar, haddr, hbool, hu, hi, hb]

/-- **C1.** For every supported scalar value type, `encodeIndexedValue`
produces the exact 32-byte topic given by the per-type rules: an address
is left-zero-padded to 32 bytes; an unsigned integer type encodes the
value's big-endian unsigned representation in 32 bytes (`uint256` value
`2` gives 31 zero bytes then `0x02`); a signed integer type encodes the
256-bit two's-complement representation (`int256` value `-2` gives 32
bytes of `0xff` except a final `0xfe`); `bool` encodes 32 bytes holding
1 for a true value and 0 for a false one; a fixed-size byte array is
left-zero-padded to 32 bytes; and every type outside these categories
fails with the `Unsupported indexed type` error naming the type. -/
theorem C1_encodeIndexedValue_scalar_rules :
    (∀ bs : List Nat, bs.length ≤ 32 →
      Ethers.encodeIndexedValue true (.str "address") (.bytes bs) false
        = .ok (.exact (List.replicate (32 - bs.length) 0 ++ bs))) ∧
    (∀ t ∈ Ethers.uintTypes, ∀ n : Int, 0 ≤ n → n < (2 : Int) ^ 256 →
      Ethers.encodeIndexedValue true (.str t) (.num n) false
        = .ok (.exact (Ethers.beBytes 32 n.toNat))) ∧
    (∀ t ∈ Ethers.intTypes, ∀ n : Int,
      -((2 : Int) ^ 255) ≤ n → n < (2 : Int) ^ 255 →
      Ethers.encodeIndexedValue true (.str t) (.num n) false
        = .ok (.exact (Ethers.beBytes 32 (n % (2 : Int) ^ 256).toNat))) ∧
    (Ethers.encodeIndexedValue true (.str "uint256") (.num 2) false
        = .ok (.exact (List.replicate 31 0 ++ [2]))) ∧
    (Ethers.encodeIndexedValue true (.str "int256") (.num (-2)) false
        = .ok (.exact (List.replicate 31 255 ++ [254]))) ∧
    (Ethers.encodeIndexedValue true (.str "bool") (.bool true) false
        = .ok (.exact (List.replicate 31 0 ++ [1]))) ∧
    (Ethers.encodeIndexedValue true (.str "bool") (.bool false) false
        = .ok (.exact (List.replicate 32 0))) ∧
    (∀ t ∈ Ethers.bytesTypes, ∀ bs : List Nat, bs.length ≤ 32 →
      Ethers.encodeIndexedValue true (.str t) (.bytes bs) false
        = .ok (.exact (List.replicate (32 - bs.length) 0 ++ bs))) ∧
    (∀ t : String, t ≠ "address" → t ≠ "bool" → t ∉ Ethers.uintTypes →
      t ∉ Ethers.intTypes → t ∉ Ethers.bytesTypes →
      ∀ v : JsValue, v ≠ .null → (∀ l, v ≠ .arr l) →
      Ethers.encodeIndexedValue true (.str t) v false
        = .error (.unsupportedIndexedType t)) := by
  refine ⟨?_, ?_, ?_, by rfl, by rfl, by rfl, by rfl, ?_, ?_⟩
  · intro bs hlen
    simpa [Ethers.encodeIndexedValue] using encodeScalar_address_ok hlen
  · intro t ht n h0 h1
    simpa [Ethers.encodeIndexedValue] using encodeScalar_uint_ok ht h0 h1
  · intro t ht n h0 h1
    simpa [Ethers.encodeIndexedValue] using encodeScalar_int_ok ht h0 h1
  · intro t ht bs hlen
    simpa [Ethers.encodeIndexedValue] using encodeScalar_bytes_ok ht hlen
  · intro t haddr hbool hu hi hb v hv harr
    cases v
    case null => exact absurd rfl hv
    case arr l => exact absurd rfl (harr l)
    all_goals
      simpa [Ethers.encodeIndexedValue] using
        encodeScalar_unsupported haddr hbool hu hi hb _

/-- Witness for C1: the theorem applied at concrete inputs of each
hypothesis-guarded conjunct. -/
theorem C1_encodeIndexedValue_scalar_rules_witness :
    (Ethers.encodeIndexedValue true (.str "address")
        (.bytes (List.replicate 20 17)) false
      = .ok (.exact (List.replicate 12 0 ++ List.replicate 20 17))) ∧
    (Ethers.encodeIndexedValue true (.str "uint8") (.num 300) false
      = .ok (.exact (Ethers.beBytes 32 300))) ∧
    (Ethers.encodeIndexedValue true (.str "int8") (.num (-1)) false
      = .ok (.exact (Ethers.beBytes 32 (((-1 : Int) % (2 : Int) ^ 256).toNat)))) ∧
    (Ethers.encodeIndexedValue true (.str "bytes4")
        (.bytes [222, 173, 190, 239]) false
      = .ok (.exact (List.replicate 28 0 ++ [222, 173, 190, 239]))) ∧
    (Ethers.encodeIndexedValue true (.str "string") (.str "xyz") false
      = .error (.unsupportedIndexedType "string")) :=
  ⟨C1_encodeIndexedValue_scalar_rules.1 (List.replicate 20 17) (by decide),
   C1_encodeIndexedValue_scalar_rules.2.1 "uint8" (by decide) 300 (by decide) (by norm_num),
   C1_encodeIndexedValue_scalar_rules.2.2.1 "int8" (by decide) (-1) (by norm_num) (by norm_num),
   C1_encodeIndexedValue_scalar_rules.2.2.2.2.2.2.2.1 "bytes4" (by decide)
     [222, 173, 190, 239] (by decide),
   C1_encodeIndexedValue_scalar_rules.2.2.2.2.2.2.2.2 "string" (by decide) (by decide)
     (by decide) (by decide) (by decide) (.str "xyz") (by intro h; cases h)
     (by intro l h; cases h)⟩

/-! ### C3 and C4: topic encoding from positional and mapping forms -/

theorem except_map_error_iff {α β : Type} (f : α → β) (x : Except JsErr α) (e : JsErr) :
    x.map f = .error e ↔ x = .error e := by
  cases x <;> simp [Except.map]

theorem except_map_ok_iff {α β : Type} (f : α → β) (x : Except JsErr α) (y : β) :
    x.map f = .ok y ↔ ∃ a, x = .ok a ∧ y = f a := by
  cases x <;> simp [Except.map, eq_comm]

theorem encodeScalar_false_ne_nullInArray (t v : JsValue) :
    Ethers.encodeScalar false t v ≠ .error .nullInArray := by
  cases t
  case str s =>
    simp only [Ethers.encodeScalar]
    split_ifs <;> first | contradiction | simp
  all_goals simp [Ethers.encodeScalar]

theorem mapEncodeShifted_ne_nullInArray (l : List JsValue) :
    Ethers.mapEncodeShifted l ≠ .error .nullInArray := by
  induction l with
  | nil => simp [Ethers.mapEncodeShifted]
  | cons v rest ih =>
    simp only [Ethers.mapEncodeShifted]
    cases hv : Ethers.encodeIndexedValueShifted v with
    | error e =>
      have hne : e ≠ .nullInArray := by
        intro he
        subst he
        exact encodeScalar_false_ne_nullInArray v (.bool true) hv
      simpa using hne
    | ok t =>
      intro h
      exact ih ((except_map_error_iff _ _ _).mp h)

/-- **C4.** (code bug) The array (`AnyOf`) branch of `encodeIndexedValue`
is broken by the argument-shifted recursive call of `ethers.js` line 168:
instead of producing an `AnyOf` of individually encoded elements, a
sequence value `[2]` for type `uint256` throws
`Unsupported indexed type: 2` (the element is dispatched as if it were
the type); a null element throws `Unsupported indexed type: null` and a
nested array `[[3]]` throws `Unsupported indexed type: 3` — never the
intended `null cannot be an individual topic in an array` error, which
the last conjunct shows to be unreachable for every array value. -/
theorem C4_anyOf_encoding_broken :
    (Ethers.encodeIndexedValue true (.str "uint256") (.arr [.num 2]) false
        = .error (.unsupportedIndexedType "2")) ∧
    (Ethers.encodeIndexedValue true (.str "uint256") (.arr [.null, .num 2]) false
        = .error (.unsupportedIndexedType "null")) ∧
    (Ethers.encodeIndexedValue true (.str "uint256") (.arr [.arr [.num 3]]) false
        = .error (.unsupportedIndexedType "3")) ∧
    (∀ (hre : Bool) (type : JsValue) (l : List JsValue),
      Ethers.encodeIndexedValue hre type (.arr l) false ≠ .error .nullInArray) := by
  refine ⟨by rfl, by rfl, by rfl, ?_⟩
  intro hre type l h
  exact mapEncodeShifted_ne_nullInArray l ((except_map_error_iff _ _ _).mp h)

/-- **C3.** (code bug) For the sample event with indexed parameters
`foo`, `bar`, `baz`: the positional indexed-args sequence
`[null, 2, -2]` encodes in the ethers backend to the claimed topics
`[Wildcard, Exact(enc 2), Exact(enc -2)]`, but the equivalent mapping
`{foo: null, bar: 2, baz: -2}` encodes to three wildcards, because
`encodeTopics` looks the mapping up under the **event** name
(`indexedArgs[eventFragment.name]`) instead of each parameter's name.
In the viem backend both forms do normalize to the identical canonical
mapping, as the claim states. -/
theorem C3_positional_vs_mapping_topics :
    (Ethers.encodeTopics true sampleFragment (.arr [.null, .num 2, .num (-2)])
        = .ok [.wildcard, .exact (List.replicate 31 0 ++ [2]),
               .exact (List.replicate 31 255 ++ [254])]) ∧
    (Ethers.encodeTopics true sampleFragment
        (.obj [("foo", .null), ("bar", .num 2), ("baz", .num (-2))])
        = .ok [.wildcard, .wildcard, .wildcard]) ∧
    (Viem.normalizeIndexedArgs sampleAbiItem (.arr [.null, .num 2, .num (-2)])
        = .ok (.obj [("foo", .null), ("bar", .num 2), ("baz", .num (-2))])) ∧
    (Viem.normalizeIndexedArgs sampleAbiItem
        (.obj [("foo", .null), ("bar", .num 2), ("baz", .num (-2))])
        = .ok (.obj [("foo", .null), ("bar", .num 2), ("baz", .num (-2))])) :=
  ⟨by rfl, by rfl, by rfl, by rfl⟩

/-! ### C5: positional indexed-argument normalization -/

theorem isUndef_iff (v : JsValue) : isUndef v = true ↔ v = .undef := by
  cases v <;> simp [isUndef]

theorem encodeTopicsGo_length (params : List EParam) :
    ∀ (hre : Bool) (ev : String) (args : JsValue) (idx : Nat) (ts : List Topic),
      Ethers.encodeTopicsGo hre ev args idx params = .ok ts →
      ts.length = (params.filter (fun p => p.indexed)).length := by
  induction params with
  | nil =>
    intro hre ev args idx ts h
    simp only [Ethers.encodeTopicsGo] at h
    cases h
    simp
  | cons p rest ih =>
    intro hre ev args idx ts h
    by_cases hp : p.indexed = true
    · simp only [Ethers.encodeTopicsGo, hp, if_true] at h
      by_cases hu : isUndef (if isNullish (jsGet args ev) = true
          then jsIndex args idx else jsGet args ev) = true
      · rw [if_pos hu] at h
        obtain ⟨ts', hgo, hts⟩ := (except_map_ok_iff _ _ _).mp h
        subst hts
        simp [List.filter_cons, hp, ih hre ev args _ ts' hgo]
      · rw [if_neg hu] at h
        cases henc : Ethers.encodeIndexedValue hre (.str p.type)
            (if isNullish (jsGet args ev) = true
              then jsIndex args idx else jsGet args ev) false with
        | error e => rw [henc] at h; cases h
        | ok t =>
          rw [henc] at h
          obtain ⟨ts', hgo, hts⟩ := (except_map_ok_iff _ _ _).mp h
          subst hts
          simp [List.filter_cons, hp, ih hre ev args _ ts' hgo]
    · have hp' : p.indexed = false := by revert hp; cases p.indexed <;> simp
      simp only [Ethers.encodeTopicsGo, hp', Bool.false_eq_true, if_false] at h
      rw [List.filter_cons, if_neg (by simp [hp'])]
      exact ih hre ev args idx ts h

theorem buildIndexedObjGo_lookup_fresh (l : List JsValue) (params : List JsValue) :
    ∀ (start : Nat) (acc : List (String × JsValue)) (k : String),
      (∀ p ∈ params, jsDisplay (jsGet p "name") ≠ k) →
      jsLookup (Viem.buildIndexedObjGo l start params acc) k = jsLookup acc k := by
  induction params with
  | nil => intro start acc k _; rfl
  | cons p rest ih =>
    intro start acc k h
    simp only [Viem.buildIndexedObjGo]
    rw [ih (start + 1) _ k (fun q hq => h q (List.mem_cons_of_mem _ hq))]
    by_cases hu : isUndef (l.getD start .undef) = true
    · rw [if_pos hu]
    · rw [if_neg hu, jsLookup_jsSet_ne _ _ (h p (List.mem_cons_self _ _))]

theorem buildIndexedObjGo_lookup (l : List JsValue) (params : List JsValue) :
    ∀ (start : Nat) (acc : List (String × JsValue)) (i : Nat),
      i < params.length →
      (params.map (fun p => jsDisplay (jsGet p "name"))).Nodup →
      jsLookup (Viem.buildIndexedObjGo l start params acc)
          (jsDisplay (jsGet (params.getD i (.obj [])) "name"))
        = if isUndef (l.getD (start + i) .undef) = true
          then jsLookup acc (jsDisplay (jsGet (params.getD i (.obj [])) "name"))
          else l.getD (start + i) .undef := by
  induction params with
  | nil => intro start acc i hi _; simp at hi
  | cons p rest ih =>
    intro start acc i hi hnd
    rw [List.map_cons, List.nodup_cons] at hnd
    obtain ⟨hnotin, hndrest⟩ := hnd
    cases i with
    | zero =>
      have hget : (p :: rest).getD 0 (JsValue.obj []) = p := rfl
      rw [hget]
      simp only [Viem.buildIndexedObjGo]
      rw [buildIndexedObjGo_lookup_fresh l rest (start + 1) _ _
        (fun q hq hqe => hnotin (by rw [← hqe]; exact List.mem_map_of_mem _ hq))]
      rw [Nat.add_zero]
      by_cases hu : isUndef (l.getD start .undef) = true
      · rw [if_pos hu, if_pos hu]
      · rw [if_neg hu, if_neg hu, jsLookup_jsSet_self]
    | succ i' =>
      have hlen' : i' < rest.length := by
        simp only [List.length_cons] at hi; omega
      have hget : (p :: rest).getD (i' + 1) (JsValue.obj [])
          = rest.getD i' (JsValue.obj []) := rfl
      rw [hget]
      simp only [Viem.buildIndexedObjGo]
      rw [ih (start + 1) _ i' hlen' hndrest]
      have harith : start + 1 + i' = start + (i' + 1) := by omega
      rw [harith]
      by_cases hu0 : isUndef (l.getD start .undef) = true
      · rw [if_pos hu0]
      · rw [if_neg hu0]
        have hmem : rest.getD i' (JsValue.obj []) ∈ rest := by
          rw [List.getD_eq_getElem _ _ hlen']
          exact List.getElem_mem _
        have hne : jsDisplay (jsGet p "name")
            ≠ jsDisplay (jsGet (rest.getD i' (JsValue.obj [])) "name") :=
          fun he => hnotin (by rw [he]; exact List.mem_map_of_mem _ hmem)
        rw [jsLookup_jsSet_ne _ _ hne]

/-- Counterexample showing that in the ethers backend a positional
indexed-args sequence longer than the indexed-parameter count is
**not** rejected: for an event with one indexed parameter, the sequence
`[2, 3]` encodes successfully (the excess position is silently
ignored) instead of failing with the too-many-arguments error. -/
theorem C5_counterexample_ethers_ignores_excess :
    Ethers.encodeTopics true { name := "E", inputs := [⟨"a", "uint256", true⟩] }
      (.arr [.num 2, .num 3])
      = .ok [.exact (List.replicate 31 0 ++ [2])] := by rfl

/-- **C5 (amended).** In the **viem** backend, `normalizeIndexedArgs`
fails with the too-many-arguments error exactly when a positional
sequence is longer than the indexed-parameter count, and otherwise pairs
each position with the indexed parameter of the same index, treating
absent (`undefined`) positions as wildcards (omitted keys); the
**ethers** backend performs no such length check — its topic encoding
always produces exactly one topic per indexed parameter, silently
ignoring excess positional arguments. -/
theorem C5_positional_normalization :
    (∀ (eventAbi : JsValue) (l : List JsValue),
      ((Viem.abiInputs eventAbi).filter (fun p => truthy (jsGet p "indexed"))).length
          < l.length →
      Viem.normalizeIndexedArgs eventAbi (.arr l)
        = .error (.tooManyArguments
            ((Viem.abiInputs eventAbi).filter
              (fun p => truthy (jsGet p "indexed"))).length
            l.length)) ∧
    (∀ (eventAbi : JsValue) (l : List JsValue),
      l.length ≤ ((Viem.abiInputs eventAbi).filter
          (fun p => truthy (jsGet p "indexed"))).length →
      Viem.normalizeIndexedArgs eventAbi (.arr l)
        = .ok (.obj (Viem.buildIndexedObjGo l 0
            ((Viem.abiInputs eventAbi).filter
              (fun p => truthy (jsGet p "indexed"))) []))) ∧
    (∀ (params : List JsValue) (l : List JsValue) (i : Nat),
      i < params.length →
      (params.map (fun p => jsDisplay (jsGet p "name"))).Nodup →
      jsLookup (Viem.buildIndexedObjGo l 0 params [])
          (jsDisplay (jsGet (params.getD i (.obj [])) "name"))
        = l.getD i .undef) ∧
    (∀ (hre : Bool) (frag : EventFragment) (args : JsValue) (ts : List Topic),
      Ethers.encodeTopics hre frag args = .ok ts →
      ts.length = (frag.inputs.filter (fun p => p.indexed)).length) := by
  refine ⟨?_, ?_, ?_, ?_⟩
  · intro eventAbi l h
    simp only [Viem.normalizeIndexedArgs]
    rw [if_pos h]
  · intro eventAbi l h
    simp only [Viem.normalizeIndexedArgs]
    rw [if_neg (not_lt.mpr h)]
  · intro params l i hi hnd
    have hmain := buildIndexedObjGo_lookup l params 0 [] i hi hnd
    rw [Nat.zero_add] at hmain
    rw [hmain]
    by_cases hu : isUndef (l.getD i .undef) = true
    · rw [if_pos hu, (isUndef_iff _).mp hu]
      rfl
    · rw [if_neg hu]
  · intro hre frag args ts h
    exact encodeTopicsGo_length frag.inputs hre frag.name args 0 ts h

/-- Witness for C5: the theorem applied at concrete inputs. -/
theorem C5_positional_normalization_witness :
    (Viem.normalizeIndexedArgs sampleAbiItem (.arr [.num 1, .num 2, .num 3, .num 4])
        = .error (.tooManyArguments 3 4)) ∧
    (Viem.normalizeIndexedArgs sampleAbiItem (.arr [.num 7])
        = .ok (.obj (Viem.buildIndexedObjGo [.num 7] 0
            ((Viem.abiInputs sampleAbiItem).filter
              (fun p => truthy (jsGet p "indexed"))) []))) ∧
    (jsLookup (Viem.buildIndexedObjGo [.num 7, .undef] 0
          ((Viem.abiInputs sampleAbiItem).filter
            (fun p => truthy (jsGet p "indexed"))) [])
        (jsDisplay (jsGet (((Viem.abiInputs sampleAbiItem).filter
            (fun p => truthy (jsGet p "indexed"))).getD 1 (.obj [])) "name"))
        = .undef) ∧
    (([Topic.wildcard, Topic.exact (List.replicate 31 0 ++ [2]),
       Topic.exact (List.replicate 31 255 ++ [254])] : List Topic).length
        = (sampleFragment.inputs.filter (fun p => p.indexed)).length) :=
  ⟨C5_positional_normalization.1 sampleAbiItem
      [.num 1, .num 2, .num 3, .num 4] (by decide),
   C5_positional_normalization.2.1 sampleAbiItem [.num 7] (by decide),
   C5_positional_normalization.2.2.1
      ((Viem.abiInputs sampleAbiItem).filter (fun p => truthy (jsGet p "indexed")))
      [.num 7, .undef] 1 (by decide) (by decide),
   C5_positional_normalization.2.2.2 true sampleFragment
      (.arr [.null, .num 2, .num (-2)]) _ (by rfl)⟩

/-! ### C2, C7, C10: event descriptor resolution -/

theorem getEventAbi_bare_notFound (pf : String → Except JsErr JsValue)
    (abi : List JsValue) (name : String)
    (hpar : name.data.contains '(' = false)
    (h : ∀ item ∈ abi,
      (strEqJs (jsGet item "type") "event" && strEqJs (jsGet item "name") name) = false) :
    Viem.getEventAbi pf abi name = .error .notFound := by
  simp only [Viem.getEventAbi, hpar, Bool.not_false, if_true]
  rw [List.filter_eq_nil_iff.mpr (fun a ha => by simp [h a ha])]

theorem getEventAbi_bare_first (pf : String → Except JsErr JsValue)
    (pre : List JsValue) (e : JsValue) (post : List JsValue) (name : String)
    (hpar : name.data.contains '(' = false)
    (he : (strEqJs (jsGet e "type") "event" && strEqJs (jsGet e "name") name) = true)
    (hpre : ∀ item ∈ pre,
      (strEqJs (jsGet item "type") "event" && strEqJs (jsGet item "name") name) = false) :
    Viem.getEventAbi pf (pre ++ e :: post) name = .ok e := by
  simp only [Viem.getEventAbi, hpar, Bool.not_false, if_true]
  rw [List.filter_append,
    List.filter_eq_nil_iff.mpr (fun a ha => by simp [hpre a ha]),
    List.filter_cons, if_pos he, List.nil_append]

theorem getEventAbi_sig_notFound (pf : String → Except JsErr JsValue)
    (abi : List JsValue) (name : String) (parsed : JsValue)
    (hpar : name.data.contains '(' = true)
    (hp : pf name = .ok parsed)
    (h : ∀ item ∈ abi,
      (strEqJs (jsGet item "type") "event" && jsonEq item parsed) = false) :
    Viem.getEventAbi pf abi name = .error .notFound := by
  simp only [Viem.getEventAbi, hpar, Bool.not_true, Bool.false_eq_true, if_false, hp]
  rw [List.filter_eq_nil_iff.mpr (fun a ha => by simp [h a ha])]

theorem getEventAbi_sig_found (pf : String → Except JsErr JsValue)
    (pre : List JsValue) (e : JsValue) (post : List JsValue) (name : String)
    (parsed : JsValue)
    (hpar : name.data.contains '(' = true)
    (hp : pf name = .ok parsed)
    (he : (strEqJs (jsGet e "type") "event" && jsonEq e parsed) = true) :
    Viem.getEventAbi pf (pre ++ e :: post) name = .ok parsed := by
  simp only [Viem.getEventAbi, hpar, Bool.not_true, Bool.false_eq_true, if_false, hp]
  have hmem : e ∈ (pre ++ e :: post).filter
      (fun item => strEqJs (jsGet item "type") "event" && jsonEq item parsed) :=
    List.mem_filter.mpr ⟨List.mem_append_right _ (List.mem_cons_self _ _), he⟩
  cases heq : (pre ++ e :: post).filter
      (fun item => strEqJs (jsGet item "type") "event" && jsonEq item parsed) with
  | nil => exact absurd heq (List.ne_nil_of_mem hmem)
  | cons m ms => rfl

/-- Counterexample to C7 in the ethers backend: bare-name resolution is
delegated to the ethers library's `Interface.getEvent`, which for a bare
name shared by **two** overloads fails with the
"ambiguous event description" assertion instead of returning the first
overload in declaration order, as the claim's first-match policy
requires. -/
theorem C7_counterexample_ethers_ambiguous_overload :
    Ethers.getEventBareName
      [{ name := "SampleEvent",
         inputs := [⟨"a", "uint256", true⟩] },
       { name := "SampleEvent",
         inputs := [⟨"a", "uint256", true⟩, ⟨"b", "uint256", false⟩] }]
      "SampleEvent" = .error .ambiguousEvent := by rfl

/-- **C7 (amended).** In the **viem** backend, a bare event identifier
(no parenthesis) resolves to the first ABI item in declaration order
with `type === "event"` and a strictly equal name — even when several
overloads share the name — and fails with the not-found error when no
event item has that name. In the **ethers** backend, bare-name
resolution goes through the library's `Interface.getEvent`, which fails
with a not-found error when no fragment has the name, returns the
unique matching fragment, and fails with the
"ambiguous event description" error when several overloads share the
name — the first-match policy applies only to the viem backend. -/
theorem C7_bare_name_resolution :
    (∀ (pf : String → Except JsErr JsValue) (abi : List JsValue) (name : String),
      name.data.contains '(' = false →
      (∀ item ∈ abi,
        (strEqJs (jsGet item "type") "event" && strEqJs (jsGet item "name") name)
          = false) →
      Viem.getEventAbi pf abi name = .error .notFound) ∧
    (∀ (pf : String → Except JsErr JsValue) (pre : List JsValue) (e : JsValue)
        (post : List JsValue) (name : String),
      name.data.contains '(' = false →
      (strEqJs (jsGet e "type") "event" && strEqJs (jsGet e "name") name) = true →
      (∀ item ∈ pre,
        (strEqJs (jsGet item "type") "event" && strEqJs (jsGet item "name") name)
          = false) →
      Viem.getEventAbi pf (pre ++ e :: post) name = .ok e) ∧
    (∀ (fragments : List EventFragment) (key : String),
      (∀ f ∈ fragments, (f.name == key) = false) →
      Ethers.getEventBareName fragments key = .error .notFound) ∧
    (∀ (fragments : List EventFragment) (key : String) (f : EventFragment),
      fragments.filter (fun g => g.name == key) = [f] →
      Ethers.getEventBareName fragments key = .ok f) ∧
    (∀ (fragments : List EventFragment) (key : String) (f1 f2 : EventFragment)
        (others : List EventFragment),
      fragments.filter (fun g => g.name == key) = f1 :: f2 :: others →
      Ethers.getEventBareName fragments key = .error .ambiguousEvent) := by
  refine ⟨getEventAbi_bare_notFound, getEventAbi_bare_first, ?_, ?_, ?_⟩
  · intro fragments key h
    simp only [Ethers.getEventBareName]
    rw [List.filter_eq_nil_iff.mpr (fun a ha => by simp [h a ha])]
  · intro fragments key f hfil
    simp only [Ethers.getEventBareName]
    rw [hfil]
  · intro fragments key f1 f2 others hfil
    simp only [Ethers.getEventBareName]
    rw [hfil]

/-- Witness for C7: the viem resolver fails on an unknown bare name and
picks the first of two overloads (skipping a same-named non-event item);
the ethers library model fails on an unknown name, returns a unique
match, and rejects an overloaded name as ambiguous. -/
theorem C7_bare_name_resolution_witness :
    (Viem.getEventAbi (fun _ => .error .typeError) [sampleAbiItem] "Missing"
        = .error .notFound) ∧
    (Viem.getEventAbi (fun _ => .error .typeError)
        [.obj [("name", .str "SampleEvent"), ("type", .str "function")],
         anonEventItem, sampleAbiItem] "SampleEvent"
        = .ok anonEventItem) ∧
    (Ethers.getEventBareName [sampleFragment] "Missing" = .error .notFound) ∧
    (Ethers.getEventBareName [sampleFragment] "SampleEvent" = .ok sampleFragment) ∧
    (Ethers.getEventBareName [sampleFragment, { name := "SampleEvent", inputs := [] }]
        "SampleEvent" = .error .ambiguousEvent) :=
  ⟨C7_bare_name_resolution.1 (fun _ => .error .typeError) [sampleAbiItem]
      "Missing" (by rfl) (by decide),
   C7_bare_name_resolution.2.1 (fun _ => .error .typeError)
      [.obj [("name", .str "SampleEvent"), ("type", .str "function")]]
      anonEventItem [sampleAbiItem] "SampleEvent" (by rfl) (by rfl) (by decide),
   C7_bare_name_resolution.2.2.1 [sampleFragment] "Missing" (by decide),
   C7_bare_name_resolution.2.2.2.1 [sampleFragment] "SampleEvent" sampleFragment
      (by rfl),
   C7_bare_name_resolution.2.2.2.2
      [sampleFragment, { name := "SampleEvent", inputs := [] }] "SampleEvent"
      sampleFragment { name := "SampleEvent", inputs := [] } [] (by rfl)⟩

/-- Counterexample to C2: the hardhat artifact descriptor of
`SampleEvent` and the parsed full-signature item match structurally in
the spec's sense (same name, same ordered types, same indexed flags —
even the same parameter names), yet resolution fails with the not-found
error, because the code compares `JSON.stringify` serializations, which
differ in auxiliary fields (`anonymous`, `internalType`) and key order. -/
theorem C2_counterexample_structural_match_rejected :
    specStructMatch sampleAbiItem sampleParsedItem = true ∧
    Viem.getEventAbi (fun _ => .ok sampleParsedItem) [sampleAbiItem]
      "SampleEvent(bytes32 indexed foo, uint256 indexed bar, int256 indexed baz, bytes data)"
      = .error .notFound :=
  ⟨by rfl, by rfl⟩

/-- **C2 (amended).** For a parenthesised identifier, `getEventAbi`
parses it and succeeds exactly when some ABI item with
`type === "event"` is `JSON.stringify`-identical to the parsed item
(same fields **including parameter names** and auxiliary keys, in the
same order) — matching is not structural and not independent of
parameter names — in which case the parsed item itself is returned;
when no item is JSON-identical, it fails with the not-found error. -/
theorem C2_signature_resolution_json_identity :
    (∀ (pf : String → Except JsErr JsValue) (abi : List JsValue) (name : String)
        (parsed : JsValue),
      name.data.contains '(' = true →
      pf name = .ok parsed →
      (∀ item ∈ abi,
        (strEqJs (jsGet item "type") "event" && jsonEq item parsed) = false) →
      Viem.getEventAbi pf abi name = .error .notFound) ∧
    (∀ (pf : String → Except JsErr JsValue) (pre : List JsValue) (e : JsValue)
        (post : List JsValue) (name : String) (parsed : JsValue),
      name.data.contains '(' = true →
      pf name = .ok parsed →
      (strEqJs (jsGet e "type") "event" && jsonEq e parsed) = true →
      Viem.getEventAbi pf (pre ++ e :: post) name = .ok parsed) :=
  ⟨getEventAbi_sig_notFound, getEventAbi_sig_found⟩

/-- Witness for C2: a parsed item that is JSON-identical to no ABI entry
is rejected; one that is JSON-identical to an entry resolves (to the
parsed item). -/
theorem C2_signature_resolution_json_identity_witness :
    (Viem.getEventAbi (fun _ => .ok sampleParsedItem) [anonEventItem]
        "SampleEvent(bytes32 indexed foo, uint256 indexed bar, int256 indexed baz, bytes data)"
        = .error .notFound) ∧
    (Viem.getEventAbi (fun _ => .ok sampleParsedItem) [sampleParsedItem]
        "SampleEvent(bytes32 indexed foo, uint256 indexed bar, int256 indexed baz, bytes data)"
        = .ok sampleParsedItem) :=
  ⟨C2_signature_resolution_json_identity.1 (fun _ => .ok sampleParsedItem)
      [anonEventItem] _ sampleParsedItem (by rfl) (by rfl) (by decide),
   C2_signature_resolution_json_identity.2 (fun _ => .ok sampleParsedItem)
      [] sampleParsedItem [] _ sampleParsedItem (by rfl) (by rfl) (by rfl)⟩

theorem buildIndexedObjGo_keys_undefined (l : List JsValue) (params : List JsValue) :
    ∀ (start : Nat) (acc : List (String × JsValue)),
      (∀ p ∈ params, isUndef (jsGet p "name") = true) →
      (∀ kv ∈ acc, kv.1 = "undefined") →
      ∀ kv ∈ Viem.buildIndexedObjGo l start params acc, kv.1 = "undefined" := by
  induction params with
  | nil => intro start acc _ hacc kv hkv; exact hacc kv hkv
  | cons p rest ih =>
    intro start acc hnames hacc kv hkv
    simp only [Viem.buildIndexedObjGo] at hkv
    refine ih (start + 1) _ (fun q hq => hnames q (List.mem_cons_of_mem _ hq)) ?_ kv hkv
    intro kv' hkv'
    by_cases hu : isUndef (l.getD start .undef) = true
    · rw [if_pos hu] at hkv'
      exact hacc kv' hkv'
    · rw [if_neg hu] at hkv'
      rcases fst_eq_of_mem_jsSet hkv' with h1 | h1
      · rw [h1, (isUndef_iff _).mp (hnames p (List.mem_cons_self _ _))]
        rfl
      · exact hacc kv' h1

/-- **C10.** When a parenthesised identifier resolves, `getEventAbi`
returns the item parsed from the caller's signature string (`viem.js`
line 105), and that parsed item is what flows into all downstream
normalization; consequently, for a type-only signature whose parsed
parameters carry no names, every defined positional indexed argument is
stored in the canonical mapping under the single property key
`"undefined"` (`String(param.name)` for a missing name) — the concrete
conjunct shows two positional arguments collapsing onto that one key,
the later overwriting the earlier. -/
theorem C10_parsed_descriptor_used_downstream :
    (∀ (pf : String → Except JsErr JsValue) (pre : List JsValue) (e : JsValue)
        (post : List JsValue) (name : String) (parsed : JsValue),
      name.data.contains '(' = true →
      pf name = .ok parsed →
      (strEqJs (jsGet e "type") "event" && jsonEq e parsed) = true →
      Viem.getEventAbi pf (pre ++ e :: post) name = .ok parsed) ∧
    (∀ (parsed : JsValue) (l : List JsValue) (kv : String × JsValue),
      (∀ p ∈ (Viem.abiInputs parsed).filter (fun p => truthy (jsGet p "indexed")),
        isUndef (jsGet p "name") = true) →
      kv ∈ Viem.buildIndexedObjGo l 0
        ((Viem.abiInputs parsed).filter (fun p => truthy (jsGet p "indexed"))) [] →
      kv.1 = "undefined") ∧
    (Viem.normalizeIndexedArgs anonEventItem (.arr [.num 1, .num 2])
      = .ok (.obj [("undefined", .num 2)])) := by
  refine ⟨getEventAbi_sig_found, ?_, by rfl⟩
  intro parsed l kv hnames hkv
  exact buildIndexedObjGo_keys_undefined l _ 0 [] hnames (by simp) kv hkv

/-- Witness for C10: a type-only two-parameter event item resolves to
the parsed item itself, and a positional argument lands under the key
`"undefined"`. -/
theorem C10_parsed_descriptor_used_downstream_witness :
    (Viem.getEventAbi (fun _ => .ok anonEventItem) [anonEventItem]
        "SampleEvent(bytes32 indexed,uint256 indexed)" = .ok anonEventItem) ∧
    (("undefined", JsValue.num 5).1 = "undefined") :=
  ⟨C10_parsed_descriptor_used_downstream.1 (fun _ => .ok anonEventItem)
      [] anonEventItem [] "SampleEvent(bytes32 indexed,uint256 indexed)"
      anonEventItem (by rfl) (by rfl) (by rfl),
   C10_parsed_descriptor_used_downstream.2.1 anonEventItem [.num 5]
      ("undefined", JsValue.num 5) (by decide) (List.Mem.head _)⟩

/-! ### C6 and C9: watch delivery and transaction-scoped logs -/

/-- A concrete raw ethers receipt log. -/
def entry0 : RawEntry :=
  { blockNumber := .num 1, blockHash := .bytes [1],
    transactionIndex := .num 0, transactionHash := .bytes [2],
    index := .num 0 }

/-- A concrete decode result: `SampleEvent(uint256 value)` with value 7. -/
def parsedLog0 : ParsedLog :=
  { name := "SampleEvent", inputs := [⟨"value", "uint256", false⟩],
    argVals := [.num 7] }

/-- A decoder that parses every entry into `parsedLog0` (the interface
knows the event and the entry matches it). -/
def parseLog0 : RawEntry → Option ParsedLog := fun _ => some parsedLog0

/-- A concrete raw viem log for `SampleEvent`, distinguished by its
`logIndex`. -/
def vlog (i : Int) : RawViemLog :=
  { eventName := .str "SampleEvent",
    args := .obj [("foo", .bytes [1]), ("bar", .num 2), ("baz", .num (-2)),
                  ("data", .bytes [])],
    blockNumber := .num 1, blockHash := .bytes [3],
    transactionIndex := .num 0, transactionHash := .bytes [4],
    logIndex := .num i }

/-- A callback that throws exactly on the log with `logIndex` 2. -/
def cbBoom2 : NormalizedLog RawViemLog → Except JsErr Unit := fun n =>
  match n.logIndex with
  | .num 2 => .error (.userError "boom")
  | _ => .ok ()

/-- Counterexample to C6 for the ethers backend: the `wrappedCallback`
of `watchLogs` applies the user callback with no `try`/`catch`, so a
callback exception propagates out of the delivery boundary instead of
being caught and reported there. -/
theorem C6_counterexample_ethers_callback_uncaught :
    Ethers.wrappedCallback parseLog0 (fun _ => .error (.userError "boom")) entry0
      = .error (.userError "boom") := by rfl

/-- **C6 (amended).** In the **viem** backend, the `onLogs` batch
delivery normalizes and delivers every log of the batch to the callback
in order regardless of callback exceptions, which are caught per log and
recorded (`console.error`) — the delivery function is total, so no
exception escapes and the subscription is not terminated; concretely, a
callback throwing on log 2 of a 3-log batch still has log 3 delivered.
In the **ethers** backend each delivery carries a single log and the
wrapped callback does **not** catch callback exceptions (see the
counterexample). -/
theorem C6_watch_callback_isolation :
    (∀ (eventAbi : JsValue) (cb : NormalizedLog RawViemLog → Except JsErr Unit)
        (logs : List RawViemLog),
      (Viem.onLogsDeliver eventAbi cb logs).map Prod.fst
        = logs.map (Viem.normalizeLog eventAbi)) ∧
    (Viem.onLogsDeliver sampleAbiItem cbBoom2 [vlog 1, vlog 2, vlog 3]
        = [(Viem.normalizeLog sampleAbiItem (vlog 1), none),
           (Viem.normalizeLog sampleAbiItem (vlog 2), some (.userError "boom")),
           (Viem.normalizeLog sampleAbiItem (vlog 3), none)]) := by
  refine ⟨?_, by rfl⟩
  intro eventAbi cb logs
  induction logs with
  | nil => rfl
  | cons log rest ih => simp [Viem.onLogsDeliver, ih]

/-- Counterexample to C9: a receipt log that decodes to `SampleEvent`
(whose canonical signature is exactly the identifier
`"SampleEvent(uint256)"`) is **not** returned by the ethers
`fetchTransactionLogs` — the signature comparison reads a `signature`
property absent from raw receipt logs, so it never matches and the
result is empty, where the claim requires the log to be returned. -/
theorem C9_counterexample_signature_filter_dead :
    specCanonicalSignature "SampleEvent" ["uint256"] = "SampleEvent(uint256)" ∧
    Ethers.fetchTransactionLogs parseLog0 [entry0] "SampleEvent(uint256)" = [] :=
  ⟨by rfl, by rfl⟩

/-- **C9 (amended).** The ethers `fetchTransactionLogs` performs no
descriptor resolution and never throws: for every identifier it returns
exactly the decodable receipt logs whose decoded **name** equals the
identifier (the signature disjunct compares the non-existent `signature`
property of a raw receipt log, i.e. `undefined`, and thus never
matches); the viem variant resolves the identifier first and fails with
the not-found error for an unknown one. -/
theorem C9_transaction_logs_resolution :
    (∀ (parseLog : RawEntry → Option ParsedLog) (logs : List RawEntry)
        (name : String),
      Ethers.fetchTransactionLogs parseLog logs name
        = ((logs.map (Ethers.normalizeLog parseLog)).filterMap id).filter
            (fun e => strEqJs e.name name)) ∧
    (∀ (pf : String → Except JsErr JsValue) (cabi : List JsValue)
        (pel : List JsValue → String → List RawViemLog → List RawViemLog)
        (logs : List RawViemLog) (name : String),
      name.data.contains '(' = false →
      (∀ item ∈ cabi,
        (strEqJs (jsGet item "type") "event" && strEqJs (jsGet item "name") name)
          = false) →
      Viem.fetchTransactionLogs pf cabi pel logs name = .error .notFound) ∧
    (Ethers.fetchTransactionLogs parseLog0 [entry0] "SampleEvent"
        = [{ name := .str "SampleEvent",
             args := [("value", .num 7), ("0", .num 7)],
             blockNumber := .num 1, blockHash := .bytes [1],
             transactionIndex := .num 0, transactionHash := .bytes [2],
             logIndex := .num 0, native := entry0 }]) := by
  refine ⟨?_, ?_, by rfl⟩
  · intro parseLog logs name
    simp [Ethers.fetchTransactionLogs, rawSignature, strEqJs]
  · intro pf cabi pel logs name hpar h
    simp only [Viem.fetchTransactionLogs, getEventAbi_bare_notFound pf cabi name hpar h]

/-- Witness for C9: the viem variant rejects an unknown bare identifier
against the sample interface. -/
theorem C9_transaction_logs_resolution_witness :
    Viem.fetchTransactionLogs (fun _ => .error .typeError) [sampleAbiItem]
      (fun _ _ logs => logs) [] "Missing" = .error .notFound :=
  C9_transaction_logs_resolution.2.1 (fun _ => .error .typeError) [sampleAbiItem]
    (fun _ _ logs => logs) [] "Missing" (by rfl) (by decide)

/-! ### C8: the dual-keying invariant of normalized logs -/

theorem normalizeLogArgsGo_fresh (inputs : List JsValue) :
    ∀ (idx : Nat) (acc : List (String × JsValue)) (k : String),
      (∀ j : Nat, idx ≤ j → j < idx + inputs.length → toString j ≠ k) →
      jsLookup (Viem.normalizeLogArgsGo idx inputs acc) k = jsLookup acc k := by
  induction inputs with
  | nil => intro idx acc k _; rfl
  | cons input rest ih =>
    intro idx acc k h
    simp only [List.length_cons] at h
    simp only [Viem.normalizeLogArgsGo]
    rw [ih (idx + 1) _ k (fun j h1 h2 => h j (by omega) (by omega))]
    rw [jsLookup_jsSet_ne _ _ (h idx (by omega) (by omega))]

theorem normalizeLogArgsGo_positional (inputs : List JsValue) :
    ∀ (idx : Nat) (acc : List (String × JsValue)) (i : Nat),
      i < inputs.length →
      (∀ j1 j2 : Nat, j1 < inputs.length → j2 < inputs.length →
        toString (idx + j1) = toString (idx + j2) → j1 = j2) →
      (∀ p ∈ inputs, ∀ j : Nat, j < inputs.length →
        jsDisplay (jsGet p "name") ≠ toString (idx + j)) →
      jsLookup (Viem.normalizeLogArgsGo idx inputs acc) (toString (idx + i))
        = jsLookup acc (jsDisplay (jsGet (inputs.getD i (.obj [])) "name")) := by
  induction inputs with
  | nil => intro idx acc i hi; simp at hi
  | cons input rest ih =>
    intro idx acc i hi hinj hname
    simp only [List.length_cons] at hi hinj hname
    cases i with
    | zero =>
      simp only [Viem.normalizeLogArgsGo]
      rw [normalizeLogArgsGo_fresh rest (idx + 1) _ _ ?hfr]
      case hfr =>
        intro j h1 h2 hje
        have hj' : j = idx + (j - idx) := by omega
        have hz : (j - idx) = 0 := by
          apply hinj (j - idx) 0 (by omega) (by omega)
          rw [← hj', Nat.add_zero]
          rw [Nat.add_zero] at hje
          exact hje
        omega
      rw [Nat.add_zero, jsLookup_jsSet_self]
      rfl
    | succ i' =>
      simp only [Viem.normalizeLogArgsGo]
      have harith : idx + (i' + 1) = (idx + 1) + i' := by omega
      rw [harith]
      rw [ih (idx + 1) _ i' (by omega) ?hinj' ?hname']
      case hinj' =>
        intro j1 j2 hj1 hj2 hje
        have e1 : idx + 1 + j1 = idx + (j1 + 1) := by omega
        have e2 : idx + 1 + j2 = idx + (j2 + 1) := by omega
        rw [e1, e2] at hje
        have := hinj (j1 + 1) (j2 + 1) (by omega) (by omega) hje
        omega
      case hname' =>
        intro p hp j hj
        have e : idx + 1 + j = idx + (j + 1) := by omega
        rw [e]
        exact hname p (List.mem_cons_of_mem _ hp) (j + 1) (by omega)
      have hmem : rest.getD i' (JsValue.obj []) ∈ rest := by
        have hlen' : i' < rest.length := by omega
        rw [List.getD_eq_getElem _ _ hlen']
        exact List.getElem_mem _
      have hkn : jsDisplay (jsGet (rest.getD i' (JsValue.obj [])) "name")
          ≠ toString idx := by
        have := hname (rest.getD i' (JsValue.obj []))
          (List.mem_cons_of_mem _ hmem) 0 (by omega)
        rw [Nat.add_zero] at this
        exact this
      rw [jsLookup_jsSet_ne _ _ (Ne.symm hkn)]
      rfl

theorem normalizeLogArgs_fresh (log : ParsedLog) (keys : List String) :
    ∀ (idx : Nat) (acc : List (String × JsValue)) (k : String),
      (∀ key ∈ keys, key ≠ k) →
      (∀ j : Nat, idx ≤ j → j < idx + keys.length → toString j ≠ k) →
      jsLookup (Ethers.normalizeLogArgs log idx keys acc) k = jsLookup acc k := by
  induction keys with
  | nil => intro idx acc k _ _; rfl
  | cons key rest ih =>
    intro idx acc k hk h
    simp only [List.length_cons] at h
    simp only [Ethers.normalizeLogArgs]
    rw [ih (idx + 1) _ k (fun q hq => hk q (List.mem_cons_of_mem _ hq))
      (fun j h1 h2 => h j (by omega) (by omega))]
    rw [jsLookup_jsSet_ne _ _ (h idx (by omega) (by omega))]
    rw [jsLookup_jsSet_ne _ _ (hk key (List.mem_cons_self _ _))]

theorem normalizeLogArgs_positional (log : ParsedLog) (keys : List String) :
    ∀ (idx : Nat) (acc : List (String × JsValue)) (i : Nat),
      i < keys.length →
      (∀ j1 j2 : Nat, j1 < keys.length → j2 < keys.length →
        toString (idx + j1) = toString (idx + j2) → j1 = j2) →
      (∀ key ∈ keys, ∀ j : Nat, j < keys.length → key ≠ toString (idx + j)) →
      jsLookup (Ethers.normalizeLogArgs log idx keys acc) (toString (idx + i))
        = Ethers.resultByIndex log (idx + i) := by
  induction keys with
  | nil => intro idx acc i hi; simp at hi
  | cons key rest ih =>
    intro idx acc i hi hinj hname
    simp only [List.length_cons] at hi hinj hname
    cases i with
    | zero =>
      simp only [Ethers.normalizeLogArgs]
      rw [normalizeLogArgs_fresh log rest (idx + 1) _ _ ?hk ?hfr]
      case hk =>
        intro q hq
        have := hname q (List.mem_cons_of_mem _ hq) 0 (by omega)
        rw [Nat.add_zero] at this
        rw [Nat.add_zero]
        exact this
      case hfr =>
        intro j h1 h2 hje
        have hj' : j = idx + (j - idx) := by omega
        have hz : (j - idx) = 0 := by
          apply hinj (j - idx) 0 (by omega) (by omega)
          rw [← hj', Nat.add_zero]
          rw [Nat.add_zero] at hje
          exact hje
        omega
      rw [Nat.add_zero, jsLookup_jsSet_self]
    | succ i' =>
      simp only [Ethers.normalizeLogArgs]
      have harith : idx + (i' + 1) = (idx + 1) + i' := by omega
      rw [harith]
      rw [ih (idx + 1) _ i' (by omega) ?hinj' ?hname']
      case hinj' =>
        intro j1 j2 hj1 hj2 hje
        have e1 : idx + 1 + j1 = idx + (j1 + 1) := by omega
        have e2 : idx + 1 + j2 = idx + (j2 + 1) := by omega
        rw [e1, e2] at hje
        have := hinj (j1 + 1) (j2 + 1) (by omega) (by omega) hje
        omega
      case hname' =>
        intro q hq j hj
        have e : idx + 1 + j = idx + (j + 1) := by omega
        rw [e]
        exact hname q (List.mem_cons_of_mem _ hq) (j + 1) (by omega)

theorem normalizeLogArgs_namekey (log : ParsedLog) (keys : List String) :
    ∀ (idx : Nat) (acc : List (String × JsValue)) (i : Nat),
      i < keys.length →
      keys.Nodup →
      (∀ key ∈ keys, ∀ j : Nat, j < keys.length → key ≠ toString (idx + j)) →
      jsLookup (Ethers.normalizeLogArgs log idx keys acc) (keys.getD i "")
        = Ethers.resultByName log (keys.getD i "") := by
  induction keys with
  | nil => intro idx acc i hi; simp at hi
  | cons key rest ih =>
    intro idx acc i hi hnd hname
    simp only [List.length_cons] at hi hname
    rw [List.nodup_cons] at hnd
    obtain ⟨hnotin, hndr⟩ := hnd
    cases i with
    | zero =>
      have hget : (key :: rest).getD 0 "" = key := rfl
      rw [hget]
      simp only [Ethers.normalizeLogArgs]
      rw [normalizeLogArgs_fresh log rest (idx + 1) _ _
        (fun q hq hqe => hnotin (by rw [← hqe]; exact hq)) ?hfr]
      case hfr =>
        intro j h1 h2 hje
        have hj' : j = idx + (j - idx) := by omega
        exact hname key (List.mem_cons_self _ _) (j - idx) (by omega)
          (by rw [← hj']; exact hje.symm)
      have hkn : key ≠ toString idx := by
        have := hname key (List.mem_cons_self _ _) 0 (by omega)
        rw [Nat.add_zero] at this
        exact this
      rw [jsLookup_jsSet_ne _ _ (Ne.symm hkn), jsLookup_jsSet_self]
    | succ i' =>
      have hget : (key :: rest).getD (i' + 1) "" = rest.getD i' "" := rfl
      rw [hget]
      simp only [Ethers.normalizeLogArgs]
      rw [ih (idx + 1) _ i' (by omega) hndr ?hname']
      case hname' =>
        intro q hq j hj
        have e : idx + 1 + j = idx + (j + 1) := by omega
        rw [e]
        exact hname q (List.mem_cons_of_mem _ hq) (j + 1) (by omega)

theorem nameIdx_getD (inputs : List EParam) :
    ∀ (i : Nat), i < inputs.length →
      (inputs.map (fun p => p.name)).Nodup →
      (∀ key ∈ inputs.map (fun p => p.name), key ≠ "") →
      Ethers.nameIdx ((inputs.map (fun p => p.name)).getD i "") inputs = some i := by
  induction inputs with
  | nil => intro i hi; simp at hi
  | cons p rest ih =>
    intro i hi hnd hne
    rw [List.map_cons, List.nodup_cons] at hnd
    obtain ⟨hnotin, hndr⟩ := hnd
    cases i with
    | zero =>
      have hpn : p.name ≠ "" := hne p.name (by simp)
      simp [Ethers.nameIdx, List.getD, hpn]
    | succ i' =>
      have hlen : i' < rest.length := by
        simp only [List.length_cons] at hi; omega
      have hkey : ((p :: rest).map (fun q => q.name)).getD (i' + 1) ""
          = (rest.map (fun q => q.name)).getD i' "" := rfl
      rw [hkey]
      simp only [Ethers.nameIdx]
      rw [if_neg ?hneg]
      case hneg =>
        rintro ⟨hpn, heq⟩
        apply hnotin
        rw [heq]
        have hlen' : i' < (rest.map (fun q => q.name)).length := by simpa using hlen
        rw [List.getD_eq_getElem _ _ hlen']
        exact List.getElem_mem _
      rw [ih i' hlen hndr (fun key hk => hne key (List.mem_cons_of_mem _ hk))]
      rfl

/-- The normalized record the ethers backend produces for `entry0`. -/
def nl0 : NormalizedLog RawEntry :=
  { name := .str "SampleEvent", args := [("value", .num 7), ("0", .num 7)],
    blockNumber := .num 1, blockHash := .bytes [1], transactionIndex := .num 0,
    transactionHash := .bytes [2], logIndex := .num 0, native := entry0 }

/-- **C8 (amended).** Dual-keying invariant for **named** parameters: in
both backends, for every parameter position `i` of the descriptor
(indexed and non-indexed alike, in declaration order), the normalized
`args` maps the positional key `toString i` and the parameter-name key
to the same decoded value — in the viem backend both equal the decoded
value the raw log carried under the parameter's name, and in the ethers
backend both equal the decoded value at position `i`, provided every
parameter carries a nonempty name (an ethers `Result` drops empty names
from its key list, so an unnamed parameter breaks the invariant — see
the counterexample). The hypotheses record that parameter names are
Solidity identifiers (nonempty, never the decimal strings used as
positional keys, and pairwise distinct in the ethers conjunct, where
named `Result` access requires it) and that distinct positions have
distinct decimal keys. -/
theorem C8_dual_keyed_args :
    (∀ (abi : JsValue) (log : RawViemLog) (i : Nat),
      i < (Viem.abiInputs abi).length →
      (∀ j1 ∈ List.range (Viem.abiInputs abi).length,
        ∀ j2 ∈ List.range (Viem.abiInputs abi).length,
        toString j1 = toString j2 → j1 = j2) →
      (∀ p ∈ Viem.abiInputs abi, ∀ j ∈ List.range (Viem.abiInputs abi).length,
        jsDisplay (jsGet p "name") ≠ toString j) →
      jsLookup (Viem.normalizeLog abi log).args (toString i)
          = jsLookup (jsSpread log.args)
              (jsDisplay (jsGet ((Viem.abiInputs abi).getD i (.obj [])) "name"))
        ∧ jsLookup (Viem.normalizeLog abi log).args
              (jsDisplay (jsGet ((Viem.abiInputs abi).getD i (.obj [])) "name"))
          = jsLookup (jsSpread log.args)
              (jsDisplay (jsGet ((Viem.abiInputs abi).getD i (.obj [])) "name"))) ∧
    (∀ (parseLog : RawEntry → Option ParsedLog) (entry : RawEntry)
        (log : ParsedLog) (nl : NormalizedLog RawEntry) (i : Nat),
      parseLog entry = some log →
      Ethers.normalizeLog parseLog entry = some nl →
      i < log.inputs.length →
      (log.inputs.map (fun p => p.name)).Nodup →
      (∀ key ∈ log.inputs.map (fun p => p.name), key ≠ "") →
      (∀ j1 ∈ List.range log.inputs.length,
        ∀ j2 ∈ List.range log.inputs.length,
        toString j1 = toString j2 → j1 = j2) →
      (∀ key ∈ log.inputs.map (fun p => p.name),
        ∀ j ∈ List.range log.inputs.length, key ≠ toString j) →
      jsLookup nl.args (toString i) = Ethers.resultByIndex log i
        ∧ jsLookup nl.args ((log.inputs.map (fun p => p.name)).getD i "")
            = Ethers.resultByIndex log i) := by
  constructor
  · intro abi log i hi hinj hname
    have hinj' : ∀ j1 j2 : Nat, j1 < (Viem.abiInputs abi).length →
        j2 < (Viem.abiInputs abi).length →
        toString (0 + j1) = toString (0 + j2) → j1 = j2 := by
      intro j1 j2 h1 h2 he
      rw [Nat.zero_add, Nat.zero_add] at he
      exact hinj j1 (List.mem_range.mpr h1) j2 (List.mem_range.mpr h2) he
    have hname' : ∀ p ∈ Viem.abiInputs abi, ∀ j : Nat,
        j < (Viem.abiInputs abi).length →
        jsDisplay (jsGet p "name") ≠ toString (0 + j) := by
      intro p hp j hj
      rw [Nat.zero_add]
      exact hname p hp j (List.mem_range.mpr hj)
    have hmem : (Viem.abiInputs abi).getD i (JsValue.obj []) ∈ Viem.abiInputs abi := by
      rw [List.getD_eq_getElem _ _ hi]
      exact List.getElem_mem _
    constructor
    · have hpos := normalizeLogArgsGo_positional (Viem.abiInputs abi) 0
        (jsSpread log.args) i hi hinj' hname'
      rw [Nat.zero_add] at hpos
      exact hpos
    · have hfr := normalizeLogArgsGo_fresh (Viem.abiInputs abi) 0
        (jsSpread log.args)
        (jsDisplay (jsGet ((Viem.abiInputs abi).getD i (.obj [])) "name"))
        (fun j h1 h2 => by
          rw [Nat.zero_add] at h2
          exact Ne.symm (hname _ hmem j (List.mem_range.mpr h2)))
      exact hfr
  · intro parseLog entry log nl i hpl hnl hi hnd hnempty hinj hname
    simp only [Ethers.normalizeLog, hpl] at hnl
    injection hnl with hrec
    subst hrec
    have hlenkeys : (log.inputs.map (fun p => p.name)).length = log.inputs.length :=
      List.length_map _ _
    have hinj' : ∀ j1 j2 : Nat, j1 < (log.inputs.map (fun p => p.name)).length →
        j2 < (log.inputs.map (fun p => p.name)).length →
        toString (0 + j1) = toString (0 + j2) → j1 = j2 := by
      intro j1 j2 h1 h2 he
      rw [hlenkeys] at h1 h2
      rw [Nat.zero_add, Nat.zero_add] at he
      exact hinj j1 (List.mem_range.mpr h1) j2 (List.mem_range.mpr h2) he
    have hname' : ∀ key ∈ log.inputs.map (fun p => p.name), ∀ j : Nat,
        j < (log.inputs.map (fun p => p.name)).length →
        key ≠ toString (0 + j) := by
      intro key hk j hj
      rw [hlenkeys] at hj
      rw [Nat.zero_add]
      exact hname key hk j (List.mem_range.mpr hj)
    constructor
    · have hpos := normalizeLogArgs_positional log (log.inputs.map (fun p => p.name))
        0 [] i (by rw [hlenkeys]; exact hi) hinj' hname'
      rw [Nat.zero_add] at hpos
      exact hpos
    · have hkey := normalizeLogArgs_namekey log (log.inputs.map (fun p => p.name))
        0 [] i (by rw [hlenkeys]; exact hi) hnd hname'
      have hrn : Ethers.resultByName log ((log.inputs.map (fun p => p.name)).getD i "")
          = Ethers.resultByIndex log i := by
        simp only [Ethers.resultByName, nameIdx_getD log.inputs i hi hnd hnempty]
        rfl
      rw [hkey, hrn]

/-- Witness for C8: the sample event's four parameters in the viem
backend (position 2, parameter `baz`) and the one-parameter decode in
the ethers backend (position 0, parameter `value`). -/
theorem C8_dual_keyed_args_witness :
    (jsLookup (Viem.normalizeLog sampleAbiItem (vlog 1)).args (toString 2)
        = jsLookup (jsSpread (vlog 1).args)
            (jsDisplay (jsGet ((Viem.abiInputs sampleAbiItem).getD 2 (.obj [])) "name"))
      ∧ jsLookup (Viem.normalizeLog sampleAbiItem (vlog 1)).args
            (jsDisplay (jsGet ((Viem.abiInputs sampleAbiItem).getD 2 (.obj [])) "name"))
        = jsLookup (jsSpread (vlog 1).args)
            (jsDisplay (jsGet ((Viem.abiInputs sampleAbiItem).getD 2 (.obj [])) "name"))) ∧
    (jsLookup nl0.args (toString 0) = Ethers.resultByIndex parsedLog0 0
      ∧ jsLookup nl0.args ((parsedLog0.inputs.map (fun p => p.name)).getD 0 "")
          = Ethers.resultByIndex parsedLog0 0) :=
  ⟨C8_dual_keyed_args.1 sampleAbiItem (vlog 1) 2 (by decide) (by decide) (by decide),
   C8_dual_keyed_args.2 parseLog0 entry0 parsedLog0 nl0 0 (by rfl) (by rfl)
      (by decide) (by decide) (by decide) (by decide) (by decide)⟩

/-- A decode result with a single **unnamed** parameter, as produced for
an event declared `E(uint256)` — Solidity permits unnamed event
parameters, and the fragment's parameter name is then empty. -/
def parsedLogAnon : ParsedLog :=
  { name := "E", inputs := [⟨"", "uint256", false⟩], argVals := [.num 7] }

/-- A decoder mapping every entry to `parsedLogAnon`. -/
def parseLogAnon : RawEntry → Option ParsedLog := fun _ => some parsedLogAnon

/-- The record the ethers backend normalizes `entry0` to under
`parseLogAnon`. -/
def nlAnon : NormalizedLog RawEntry :=
  { name := .str "E", args := [("", .undef), ("0", .num 7)],
    blockNumber := .num 1, blockHash := .bytes [1], transactionIndex := .num 0,
    transactionHash := .bytes [2], logIndex := .num 0, native := entry0 }

/-- Counterexample to C8: for an event with an unnamed parameter the
dual-keying invariant fails in the ethers backend — the positional key
`"0"` of the normalized `args` holds the decoded value `7`, while the
parameter-name key (the empty string) holds `undefined`, because an
ethers `Result` stores its keys as `param.name || null` and so an empty
name is never name-accessible; the two keys do not map to the same
decoded value. -/
theorem C8_counterexample_unnamed_parameter :
    Ethers.normalizeLog parseLogAnon entry0 = some nlAnon ∧
    jsLookup nlAnon.args (toString 0) = .num 7 ∧
    jsLookup nlAnon.args "" = JsValue.undef ∧
    JsValue.num 7 ≠ JsValue.undef :=
  ⟨by rfl, by rfl, by rfl, by intro h; cases h⟩
